import Mathlib

/-!
Verification of the Anava web installer core (src/lib/installation-state.ts,
src/lib/gcp-installer.ts, src/lib/secure-storage.ts) through a shallow
embedding in Lean.  JavaScript strings are modelled as Lean `String` where
only equality and concatenation matter, and as lists of UTF-16 code units
(`List Nat`) where the byte-level encoding matters.  ISO timestamp strings
are modelled by their epoch-millisecond values (`Int`), which is the only
use the code makes of them (`new Date(s).getTime()`).
-/

namespace AnavaInstaller

/-! ## Generic string helpers (models of JS `String.prototype` methods) -/

/-- Does `needle` occur as an initial segment of `hay`?  Building block of
`String.prototype.includes`. -/
def leadMatch {α : Type} [DecidableEq α] : List α → List α → Bool
  | [], _ => true
  | _ :: _, [] => false
  | a :: as, b :: bs => a = b && leadMatch as bs

/-- Model of JS `hay.includes(needle)` on element lists. -/
def hasSub {α : Type} [DecidableEq α] (hay needle : List α) : Bool :=
  match hay with
  | [] => needle.isEmpty
  | _ :: t => leadMatch needle hay || hasSub t needle

/-- Model of JS `s.includes(sub)`. -/
def strIncludes (s sub : String) : Bool :=
  hasSub s.data sub.data

/-! ## InstallationStateManager (src/lib/installation-state.ts)

The persisted record `SavedInstallationState` and the static manager
methods.  The browser `localStorage` cell behind `SecureStorage` is
modelled as an `Option SavedInstallationState` (the encryption layer is
proved lossless separately, see the `SimpleEncryption` section).  -/

/-- `resources.serviceAccount` record. -/
structure ServiceAccountRes where
  email : String
  created : Bool
deriving DecidableEq, Repr

/-- `resources.firebaseApp` record (the `appId` field stores the web API key). -/
structure FirebaseAppRes where
  appId : String
  created : Bool
deriving DecidableEq, Repr

/-- `resources.cloudFunctions` record; `urls` has the two fixed keys
`deviceAuth` and `tvm`. -/
structure CloudFunctionsRes where
  deployed : Bool
  deviceAuth : String
  tvm : String
deriving DecidableEq, Repr

/-- `resources.workloadIdentity` record. -/
structure WorkloadIdentityRes where
  poolId : String
  providerId : String
  created : Bool
deriving DecidableEq, Repr

/-- `resources.apiGateway` record. -/
structure ApiGatewayRes where
  apiId : String
  configId : String
  gatewayId : String
  created : Bool
  url : Option String
deriving DecidableEq, Repr

/-- `resources.apiKey` record. -/
structure ApiKeyRes where
  keyId : String
  value : String
  created : Bool
deriving DecidableEq, Repr

/-- The `resources` mapping of a `SavedInstallationState`; every kind is
optional exactly as in the TypeScript interface. -/
structure ResourcesRec where
  serviceAccount : Option ServiceAccountRes := none
  firebaseApp : Option FirebaseAppRes := none
  cloudFunctions : Option CloudFunctionsRes := none
  workloadIdentity : Option WorkloadIdentityRes := none
  apiGateway : Option ApiGatewayRes := none
  apiKey : Option ApiKeyRes := none
deriving DecidableEq, Repr

/-- The compiled `InstallResult` returned by `compileResults` and optionally
persisted as `installResult`.  The `configurationSummary` display map is a
presentation-only echo of the same fields and is not embedded. -/
structure InstallResultRec where
  success : Bool
  apiGatewayUrl : String
  apiKey : String
  firebaseWebApiKey : String
  projectId : String
  region : String
  solutionPref : String
  setupCommand : String
  resumedInstallation : Bool := false
  skippedSteps : List String := []
deriving DecidableEq, Repr

/-- `SavedInstallationState`: the versioned, keyed record persisted between
installation attempts.  `startedAt` and `lastUpdated` are ISO strings in the
source, modelled by their epoch-millisecond values. -/
structure SavedInstallationState where
  projectId : String
  projectName : String
  startedAt : Int
  lastUpdated : Int
  version : Option String
  completedSteps : List String
  resources : ResourcesRec
  installResult : Option InstallResultRec
deriving DecidableEq, Repr

/-- `CURRENT_VERSION` constant. -/
def CURRENT_VERSION : String := "v2.1.2-SECURITY"

/-- `CRITICAL_STEPS_V2_1_2`: steps forced to re-run when the record was
written by a different installer version. -/
def CRITICAL_STEPS_V2_1_2 : List String :=
  ["Enabling APIs", "Creating API Gateway", "Creating service accounts"]

/-- Mask applied by `sanitizeForStorage` to a string under a sensitive key:
`value ? PROTECTED : empty`. -/
def maskStr (s : String) : String :=
  if s = "" then "" else "[PROTECTED]"

/-- Effect of `sanitizeForStorage` on a typed `SavedInstallationState`
record: the only string-valued fields of this shape whose lowercased key
contains `token`, `password`, `secret` or `key` are `resources.apiKey.keyId`
and, inside a persisted `installResult`, `apiKey` and `firebaseWebApiKey`.
(The generic JSON-level `sanitizeForStorage` is embedded separately; this is
its action on this record shape.) -/
def sanitizeRecord (s : SavedInstallationState) : SavedInstallationState :=
  { s with
    resources :=
      { s.resources with
        apiKey := s.resources.apiKey.map fun k => { k with keyId := maskStr k.keyId } }
    installResult :=
      s.installResult.map fun r =>
        { r with apiKey := maskStr r.apiKey, firebaseWebApiKey := maskStr r.firebaseWebApiKey } }

/-- The `localStorage` cell holding the single installation-state record. -/
structure Store where
  stored : Option SavedInstallationState
deriving DecidableEq, Repr

/-- `InstallationStateManager.save`: stamp `lastUpdated` with the current
time and `version` with `CURRENT_VERSION`, sanitize, persist. -/
def stateSave (s : SavedInstallationState) (now : Int) : Store :=
  { stored := some (sanitizeRecord { s with lastUpdated := now, version := some CURRENT_VERSION }) }

/-- `InstallationStateManager.load`: discard the record when it belongs to a
different `projectId`, or when `lastUpdated` is more than 24 hours before
`now` (`hoursSinceUpdate > 24` with `hoursSinceUpdate` the millisecond
difference divided by `1000*60*60`; the JS float division is exact enough
that this is equivalent to the rational comparison used here).  The
staleness branch also clears the backing cell in the source; only the
returned value is consulted by every caller in the file. -/
def stateLoad (st : Store) (projectId : String) (now : Int) : Option SavedInstallationState :=
  match st.stored with
  | none => none
  | some s =>
    if s.projectId ≠ projectId then none
    else if ((now - s.lastUpdated : Int) : ℚ) / (1000 * 60 * 60) > 24 then none
    else some s

/-- `InstallationStateManager.hasCompletedStep`. -/
def hasCompletedStep (st : Store) (projectId : String) (now : Int) (step : String) : Bool :=
  match stateLoad st projectId now with
  | none => false
  | some s =>
    if step ∉ s.completedSteps then false
    else if step ∈ CRITICAL_STEPS_V2_1_2 then
      match s.version with
      | none => false
      | some v => if v ≠ CURRENT_VERSION then false else true
    else true

/-- `InstallationStateManager.getResources`. -/
def getResources (st : Store) (projectId : String) (now : Int) : Option ResourcesRec :=
  (stateLoad st projectId now).map (·.resources)

/-- First-some merge of one optional resource kind (JS object spread:
a key present in the update wins). -/
def orO {α : Type} (patch cur : Option α) : Option α :=
  match patch with
  | some x => some x
  | none => cur

/-- `{ ...current.resources, ...resources }`. -/
def mergeResources (cur patch : ResourcesRec) : ResourcesRec where
  serviceAccount := orO patch.serviceAccount cur.serviceAccount
  firebaseApp := orO patch.firebaseApp cur.firebaseApp
  cloudFunctions := orO patch.cloudFunctions cur.cloudFunctions
  workloadIdentity := orO patch.workloadIdentity cur.workloadIdentity
  apiGateway := orO patch.apiGateway cur.apiGateway
  apiKey := orO patch.apiKey cur.apiKey

/-- `InstallationStateManager.updateStep`: load or start a fresh record,
append the step name if absent, merge the resource patch, save. -/
def updateStep (st : Store) (projectId : String) (now : Int) (step : String)
    (patch : ResourcesRec) : Store :=
  let current := (stateLoad st projectId now).getD
    { projectId := projectId, projectName := "", startedAt := now, lastUpdated := now,
      version := none, completedSteps := [], resources := {}, installResult := none }
  let current :=
    if step ∈ current.completedSteps then current
    else { current with completedSteps := current.completedSteps ++ [step] }
  let current := { current with resources := mergeResources current.resources patch }
  stateSave current now

/-! ## checkPrerequisites (gcp-installer.ts lines 247-402)

Each prerequisite probe is an independent read call whose failure means
"condition not met".  The probes are embedded as an oracle record; the
flag computation mirrors the nesting of the source `try` blocks: the three
auth-related flags are only probed when the Firebase check passed, and the
user probe only runs when the auth-config call succeeded. -/

/-- Relevant shape of the identitytoolkit config response:
`authConfig.signIn?.email?.enabled === true`. -/
structure AuthConfigResp where
  emailEnabled : Bool
deriving DecidableEq, Repr

/-- Outcomes of the five prerequisite read calls. -/
structure PrereqProbe where
  firebaseOk : Bool
  storageOk : Bool
  firestoreOk : Bool
  authConfig : Except String AuthConfigResp
  usersNonEmpty : Except String Bool
deriving Repr

/-- The six condition flags computed by `checkPrerequisites`. -/
structure PrereqFlags where
  firebaseEnabled : Bool
  storageEnabled : Bool
  firestoreEnabled : Bool
  authConfigured : Bool
  emailPasswordEnabled : Bool
  hasAuthUsers : Bool
deriving DecidableEq, Repr

/-- Flag computation of `checkPrerequisites`: auth flags stay `false`
unless Firebase is enabled and the auth-config call succeeds. -/
def computeFlags (p : PrereqProbe) : PrereqFlags :=
  let base : PrereqFlags :=
    { firebaseEnabled := p.firebaseOk, storageEnabled := p.storageOk,
      firestoreEnabled := p.firestoreOk, authConfigured := false,
      emailPasswordEnabled := false, hasAuthUsers := false }
  if p.firebaseOk then
    match p.authConfig with
    | .error _ => base
    | .ok cfg =>
      { base with
        authConfigured := true
        emailPasswordEnabled := cfg.emailEnabled
        hasAuthUsers := match p.usersNonEmpty with | .ok b => b | .error _ => false }
  else base

/-- The `missingSteps` remediation list.  Items are identified by their
`name` field; the `description`, `action` and `steps` fields are
remediation prose rendered by the excluded presentation layer. -/
def missingStepNames (f : PrereqFlags) : List String :=
  (if !f.firebaseEnabled then ["Enable Firebase"] else []) ++
  (if !f.storageEnabled then ["Set up Firebase Storage"] else []) ++
  (if !f.firestoreEnabled then ["Create Firestore Database"] else []) ++
  (if f.firebaseEnabled && !f.authConfigured then ["Initialize Firebase Authentication"] else []) ++
  (if f.authConfigured && !f.emailPasswordEnabled then ["Enable Email/Password Sign-in"] else []) ++
  (if f.emailPasswordEnabled && !f.hasAuthUsers then ["Create a Test User"] else [])

/-- `checkPrerequisites`: throw the encoded remediation list when any of
the six conditions is unmet, otherwise succeed. -/
def checkPrerequisites (p : PrereqProbe) : Except (List String) Unit :=
  let f := computeFlags p
  if !f.firebaseEnabled || !f.storageEnabled || !f.firestoreEnabled ||
      !f.authConfigured || !f.emailPasswordEnabled || !f.hasAuthUsers then
    .error (missingStepNames f)
  else .ok ()

/-! ## grantIAMRoles: additive permission merge (gcp-installer.ts lines 644-710)

An IAM policy is its list of bindings; each binding is a role with its
member list.  `grantIAMRoles` first strips malformed members (any member
containing the substring `undefined`) and drops bindings left empty, then
applies `addRoleBinding` for each new pair, then writes the document back. -/

/-- One IAM binding. -/
structure Binding where
  role : String
  members : List String
deriving DecidableEq, Repr

/-- The defensive cleanup: drop members containing `undefined`, then drop
bindings with no members left. -/
def cleanBindings (bs : List Binding) : List Binding :=
  (bs.map fun b =>
    { b with members := b.members.filter fun m => !(strIncludes m "undefined") }).filter
    fun b => !b.members.isEmpty

/-- The update applied to the first binding whose role matches: append the
member only if absent. -/
def updB (M : String) (b : Binding) : Binding :=
  if M ∈ b.members then b else { b with members := b.members ++ [M] }

/-- `policy.bindings.find(b => b.role === role)` followed by the in-place
member push: update the first binding with the given role, or report that
none exists. -/
def addToFirst (R M : String) : List Binding → Option (List Binding)
  | [] => none
  | b :: rest =>
    if b.role = R then some (updB M b :: rest)
    else (addToFirst R M rest).map (b :: ·)

/-- The `addRoleBinding` helper: skip invalid members; update the matching
binding if one exists, otherwise push a fresh binding. -/
def addRoleBinding (bs : List Binding) (R M : String) : List Binding :=
  if M = "" ∨ strIncludes M "undefined" then bs
  else
    match addToFirst R M bs with
    | some bs' => bs'
    | none => bs ++ [{ role := R, members := [M] }]

/-- The read-merge-write cycle of `grantIAMRoles` restricted to a single
new `(role, member)` pair: defensive cleanup followed by one
`addRoleBinding` application. -/
def grantPair (bs : List Binding) (R M : String) : List Binding :=
  addRoleBinding (cleanBindings bs) R M

/-- A policy document with no malformed member, no empty binding, and no
member repeated inside one binding. -/
def wellFormedPolicy (bs : List Binding) : Prop :=
  ∀ b ∈ bs, b.members ≠ [] ∧ b.members.Nodup ∧
    ∀ m ∈ b.members, strIncludes m "undefined" = false

/-! ## gcpApiCall (gcp-installer.ts lines 404-459)

The resilient call client.  The per-attempt `fetch` outcome is an oracle
indexed by the attempt number.  The source `for` loop runs `attempt` from
`1` to `retries` and every `continue` is guarded by `attempt < retries`
(for the network-error branch, by `attempt !== retries`), so the loop is
embedded as a recursion on the number of remaining attempts. -/

/-- One `fetch` outcome: an HTTP response (with `response.text()` body and
`response.json()` payload), an abort by the timeout controller, or a
network error. -/
inductive FetchResult where
  | resp (status : Nat) (body : String) (payload : String)
  | timedOut
  | netErr (msg : String)
deriving DecidableEq, Repr

/-- Trace of one `gcpApiCall` invocation: the returned payload or thrown
error message, the number of the attempt on which the call terminated, the
back-off waits performed (milliseconds), and the final per-attempt timeout. -/
structure CallTrace where
  result : Except String String
  lastAttempt : Nat
  waitsMs : List Nat
  timeoutMs : Nat
deriving Repr

/-- Decimal digit values of a natural number, most significant first. -/
def natDigits (n : Nat) : List Nat :=
  if _h : n < 10 then [n] else natDigits (n / 10) ++ [n % 10]
termination_by n
decreasing_by exact Nat.div_lt_self (by omega) (by omega)

/-- The ASCII character of one decimal digit value. -/
def digitChar : Nat → Char
  | 0 => '0' | 1 => '1' | 2 => '2' | 3 => '3' | 4 => '4'
  | 5 => '5' | 6 => '6' | 7 => '7' | 8 => '8' | _ => '9'

/-- Model of JS number-to-string conversion for a natural number
(plain decimal rendering). -/
def natToStr (n : Nat) : String :=
  ⟨(natDigits n).map digitChar⟩

/-- The message of the `GCP API Error` thrown for a non-ok response; it
escapes the loop only on the final attempt (template
`GCP API Error: status - body`). -/
def gcpErrMsg (status : Nat) (body : String) : String :=
  "GCP API Error: " ++ natToStr status ++ " - " ++ body

/-- The thrown message when the final attempt times out. -/
def timeoutErrMsg (timeoutMs : Nat) : String :=
  "Request timed out after " ++ natToStr timeoutMs ++ "ms"

/-- The retry loop of `gcpApiCall`.  `remaining` is the number of attempts
still allowed after the current one (`retries - attempt`).  A 2xx response
returns its payload.  Any other response retries while attempts remain and
throws `GCP API Error: status - body` on the final attempt: a 5xx response
takes the explicit `continue` after waiting `attempt * 2` seconds, and for
every other status the thrown `GCP API Error` is raised inside the `try`,
so the `catch` (whose `err.name` is not `AbortError`) rethrows it only
when `attempt === retries` and otherwise waits the same `attempt * 2`
seconds and retries.  A timeout with attempts remaining waits, extends the
next deadline by 1.5x capped at 10 minutes, and retries; a network error
on the final attempt rethrows, otherwise waits and retries. -/
def gcpGo (f : Nat → FetchResult) (attempt remaining tMs : Nat) (waits : List Nat) : CallTrace :=
  match f attempt with
  | .resp status body payload =>
    if 200 ≤ status ∧ status ≤ 299 then
      { result := .ok payload, lastAttempt := attempt, waitsMs := waits, timeoutMs := tMs }
    else if h : 0 < remaining then
      gcpGo f (attempt + 1) (remaining - 1) tMs (waits ++ [attempt * 2000])
    else
      { result := .error (gcpErrMsg status body), lastAttempt := attempt,
        waitsMs := waits, timeoutMs := tMs }
  | .timedOut =>
    if h : 0 < remaining then
      gcpGo f (attempt + 1) (remaining - 1) (min (tMs * 3 / 2) 600000)
        (waits ++ [attempt * 2000])
    else
      { result := .error (timeoutErrMsg tMs), lastAttempt := attempt,
        waitsMs := waits, timeoutMs := tMs }
  | .netErr msg =>
    if h : 0 < remaining then
      gcpGo f (attempt + 1) (remaining - 1) tMs (waits ++ [attempt * 2000])
    else
      { result := .error msg, lastAttempt := attempt, waitsMs := waits, timeoutMs := tMs }
termination_by remaining
decreasing_by all_goals omega

/-- `gcpApiCall(url, options, retries, timeoutMs)` with defaults
`retries = 3`, `timeoutMs = 300000`. -/
def gcpApiCall (f : Nat → FetchResult) (retries : Nat := 3) (tMs : Nat := 300000) : CallTrace :=
  gcpGo f 1 (retries - 1) tMs []

/-- An attempt outcome that does not return: a non-2xx response (its throw
or `continue` keeps the loop going while attempts remain), a timeout, or a
network error. -/
def isFailure : FetchResult → Prop
  | .resp status _ _ => ¬(200 ≤ status ∧ status ≤ 299)
  | .timedOut => True
  | .netErr _ => True

/-- Fold decimal digit values back into a number. -/
def decOfDigits (ds : List Nat) : Nat :=
  ds.foldl (fun a d => a * 10 + d) 0

/-- The status code embedded in a thrown `GCP API Error` message: the
decimal digits following the fixed prefix.  This is the discriminator the
callers of the call client have available (the source distinguishes
status-specific cases by inspecting the message for the status code). -/
def statusOfMsg (e : String) : Option Nat :=
  let l := e.data
  let pre := "GCP API Error: ".data
  if leadMatch pre l then
    let ds := (l.drop pre.length).takeWhile Char.isDigit
    if ds.isEmpty then none else some (decOfDigits (ds.map fun c => c.toNat - 48))
  else none

/-! ## API Gateway config activation poll (gcp-installer.ts lines 1394-1450)

The poll reads the API config back once per check (up to `maxChecks = 60`
checks at a 10 second interval) until its `state` is `ACTIVE`.  Each check
is an oracle call returning the `state` field (or a thrown error, which the
loop swallows and keeps polling). -/

/-- The poll loop: check `i`, then `fuel` more checks allowed. -/
def configPollGo (poll : Nat → Except String (Option String)) : Nat → Nat → Bool
  | _, 0 => false
  | i, fuel + 1 =>
    match poll i with
    | .ok (some st) => if st = "ACTIVE" then true else configPollGo poll (i + 1) fuel
    | .ok none => configPollGo poll (i + 1) fuel
    | .error _ => configPollGo poll (i + 1) fuel

/-- `configReady` after up to `maxChecks` checks starting at check 1. -/
def configPollReady (poll : Nat → Except String (Option String)) (maxChecks : Nat) : Bool :=
  configPollGo poll 1 maxChecks

/-- Outcome of the gateway-creation step at the end of the config poll:
either the degraded-success early return (a normal return carrying a
warning string and the `shouldRetryLater` marker) or continuation into
gateway creation proper. -/
inductive GatewayPhase where
  | degraded (apiGatewayWarning : String) (apiId configId gatewayId : String)
      (shouldRetryLater : Bool)
  | proceeded
deriving DecidableEq, Repr

/-- The post-poll branch of `createAPIGateway`: when the check budget is
exhausted without the config reaching `ACTIVE`, return the partial result
instead of throwing; otherwise proceed to create or update the gateway. -/
def gatewayAfterConfigPoll (poll : Nat → Except String (Option String))
    (apiId configId gatewayId : String) : Except String GatewayPhase :=
  if configPollReady poll 60 then .ok .proceeded
  else .ok (.degraded
    "API Gateway is still activating. It may take up to 15 minutes to become fully operational."
    apiId configId gatewayId true)

/-! ## AnavaGCPInstaller.install (gcp-installer.ts lines 74-245, 2023-2120)

The running `results` object is an association list of string/boolean
values; each step action is an oracle from step name to its returned
partial result (or thrown error), since the real actions are network
operations beyond the loop under verification. -/

/-- A value stored in the running `results` object. -/
inductive RVal where
  | s (v : String)
  | b (v : Bool)
deriving DecidableEq, Repr

/-- The running `results` object. -/
abbrev Results := List (String × RVal)

/-- JS truthiness of a `results` value. -/
def truthy : RVal → Bool
  | .s v => v ≠ ""
  | .b v => v

/-- JS string coercion of a `results` value. -/
def rvalToStr : RVal → String
  | .s v => v
  | .b v => if v then "true" else "false"

/-- Property read. -/
def getRes : Results → String → Option RVal
  | [], _ => none
  | (k', v') :: rest, k => if k' = k then some v' else getRes rest k

/-- Property assignment: overwrite the key if present, else append it. -/
def setR : Results → String → RVal → Results
  | [], k, v => [(k, v)]
  | (k', v') :: rest, k, v => if k' = k then (k, v) :: rest else (k', v') :: setR rest k v

/-- `Object.assign(results, stepResult)`. -/
def rassign (r patch : Results) : Results :=
  patch.foldl (fun acc e => setR acc e.1 e.2) r

/-- Is the field present and truthy? -/
def truthyKey (r : Results) (k : String) : Bool :=
  match getRes r k with
  | some v => truthy v
  | none => false

/-- `results[k] || ''` coerced to a string. -/
def strOrEmptyR (r : Results) (k : String) : String :=
  match getRes r k with
  | some v => if truthy v then rvalToStr v else ""
  | none => ""

/-- `results[k] || dflt` coerced to a string. -/
def jsStrOr (r : Results) (k : String) (dflt : String) : String :=
  match getRes r k with
  | some v => if truthy v then rvalToStr v else dflt
  | none => dflt

/-- `mapResultsToResources`: extract the resource snippet persisted for a
completed step from its returned partial result. -/
def mapResultsToResources (name : String) (sr : Results) : ResourcesRec :=
  if name = "Creating service accounts" then
    if truthyKey sr "serviceAccountEmail" then
      { serviceAccount := some ⟨strOrEmptyR sr "serviceAccountEmail", true⟩ }
    else {}
  else if name = "Setting up Firebase" then
    if truthyKey sr "firebaseEnabled" then
      { firebaseApp := some ⟨strOrEmptyR sr "firebaseWebApiKey", true⟩ }
    else {}
  else if name = "Deploying Cloud Functions" then
    if truthyKey sr "deviceAuthUrl" || truthyKey sr "tvmUrl" then
      { cloudFunctions := some ⟨true, strOrEmptyR sr "deviceAuthUrl", strOrEmptyR sr "tvmUrl"⟩ }
    else {}
  else if name = "Configuring Workload Identity" then
    if truthyKey sr "workloadIdentityPoolId" then
      { workloadIdentity := some ⟨strOrEmptyR sr "workloadIdentityPoolId",
          strOrEmptyR sr "workloadIdentityProviderId", true⟩ }
    else {}
  else if name = "Creating API Gateway" then
    if truthyKey sr "apiGatewayUrl" then
      { apiGateway := some ⟨strOrEmptyR sr "apiId", strOrEmptyR sr "apiConfigId",
          strOrEmptyR sr "gatewayId", true, some (strOrEmptyR sr "apiGatewayUrl")⟩ }
    else {}
  else if name = "Generating API keys" then
    if truthyKey sr "apiKey" then
      { apiKey := some ⟨strOrEmptyR sr "apiKeyId", strOrEmptyR sr "apiKey", true⟩ }
    else {}
  else {}

/-- The skip branch of the install loop: fold the resource snippet
previously stored for this step into the running results. -/
def foldSaved (name : String) (res : ResourcesRec) (r : Results) : Results :=
  let r := if name = "Creating service accounts" then
      match res.serviceAccount with
      | some sa => setR r "serviceAccountEmail" (.s sa.email)
      | none => r
    else r
  let r := if name = "Setting up Firebase" then
      match res.firebaseApp with
      | some fb => setR (setR r "firebaseEnabled" (.b true)) "firebaseWebApiKey" (.s fb.appId)
      | none => r
    else r
  let r := if name = "Creating API Gateway" then
      match res.apiGateway with
      | some gw =>
        match gw.url with
        | some u => if u ≠ "" then setR r "apiGatewayUrl" (.s u) else r
        | none => r
      | none => r
    else r
  let r := if name = "Generating API keys" then
      match res.apiKey with
      | some ak => if ak.value ≠ "" then setR r "apiKey" (.s ak.value) else r
      | none => r
    else r
  r

/-- The installer configuration fields the orchestrator reads. -/
structure InstallEnv where
  projectId : String
  projectName : Option String
  region : String
  solutionPref : String
deriving Repr

/-- The fixed ordered step list with relative weights (weights sum to 100). -/
def installSteps : List (String × Nat) :=
  [("Checking prerequisites", 5), ("Validating project", 5), ("Enabling APIs", 10),
   ("Creating service accounts", 15), ("Setting up Firebase", 10),
   ("Deploying Cloud Functions", 20), ("Configuring Workload Identity", 15),
   ("Creating API Gateway", 15), ("Generating API keys", 5)]

/-- The default gateway URL used when the step result carries none. -/
def gatewayDefaultUrl (env : InstallEnv) : String :=
  "https://" ++ env.solutionPref ++ "-gateway-" ++ env.projectId ++ ".apigateway." ++
    env.region ++ ".cloud.goog"

/-- `compileResults` (the `configurationSummary` display map, which echoes
these same fields, is not embedded). -/
def compileResults (env : InstallEnv) (r : Results) : InstallResultRec :=
  let apiGatewayUrl := jsStrOr r "apiGatewayUrl" (gatewayDefaultUrl env)
  let apiKey := strOrEmptyR r "apiKey"
  let firebaseWebApiKey := strOrEmptyR r "firebaseWebApiKey"
  { success := true
    apiGatewayUrl := apiGatewayUrl
    apiKey := apiKey
    firebaseWebApiKey := firebaseWebApiKey
    projectId := env.projectId
    region := env.region
    solutionPref := env.solutionPref
    setupCommand := "# Run on each Axis camera:\nexport API_GATEWAY_BASE_URL=\"" ++
      apiGatewayUrl ++ "\"\nexport API_GATEWAY_API_KEY=\"" ++
      (if apiKey = "" then "YOUR_API_KEY" else apiKey) ++
      "\"\nexport FIREBASE_WEB_API_KEY=\"" ++
      (if firebaseWebApiKey = "" then "YOUR_FIREBASE_WEB_API_KEY" else firebaseWebApiKey) ++
      "\"\nexport GCP_PROJECT_ID=\"" ++ env.projectId ++ "\"" }

/-- The spread of a previously persisted `installResult` into the fresh
`results` object (`savedState?.installResult || {}`). -/
def resultEntries (r : InstallResultRec) : Results :=
  [("success", .b r.success), ("apiGatewayUrl", .s r.apiGatewayUrl), ("apiKey", .s r.apiKey),
   ("firebaseWebApiKey", .s r.firebaseWebApiKey), ("projectId", .s r.projectId),
   ("region", .s r.region), ("solutionPrefix", .s r.solutionPref),
   ("setupCommand", .s r.setupCommand)]

/-- The loop state threaded through the steps.  `invoked` records which
step actions were actually executed (the observable the resume claim is
about). -/
structure InstallSt where
  store : Store
  results : Results
  progress : Nat
  skipped : List String
  invoked : List String

/-- The step loop of `install()`: skip a completed step (folding its stored
snippet, advancing progress by its weight), otherwise run its action,
merge its partial result, and persist the step completion. -/
def installGo (pid : String) (now : Int) (actions : String → Except String Results) :
    List (String × Nat) → InstallSt → Except (String × InstallSt) InstallSt
  | [], st => .ok st
  | (name, weight) :: rest, st =>
    if hasCompletedStep st.store pid now name then
      let st' := { st with skipped := st.skipped ++ [name], progress := st.progress + weight }
      let st' :=
        match getResources st'.store pid now with
        | none => st'
        | some res => { st' with results := foldSaved name res st'.results }
      installGo pid now actions rest st'
    else
      match actions name with
      | .error e => .error ("Failed at step \"" ++ name ++ "\": " ++ e, st)
      | .ok stepResult =>
        installGo pid now actions rest
          { store := updateStep st.store pid now name (mapResultsToResources name stepResult)
            results := rassign st.results stepResult
            progress := st.progress + weight
            skipped := st.skipped
            invoked := st.invoked ++ [name] }

/-- Outcome of one `install()` run, with the executed/skipped step trace. -/
structure InstallOutcome where
  result : Except String InstallResultRec
  invoked : List String
  skipped : List String
  finalStore : Store

/-- `AnavaGCPInstaller.install`. -/
def install (env : InstallEnv) (now : Int) (actions : String → Except String Results)
    (st0 : Store) : InstallOutcome :=
  let savedState := stateLoad st0 env.projectId now
  let isResuming := savedState.isSome
  let startStore :=
    match savedState with
    | some _ => st0
    | none => stateSave
        { projectId := env.projectId, projectName := env.projectName.getD "",
          startedAt := now, lastUpdated := now, version := none, completedSteps := [],
          resources := {}, installResult := none } now
  let results0 :=
    match savedState with
    | some s => match s.installResult with | some r => resultEntries r | none => []
    | none => []
  match installGo env.projectId now actions installSteps
    ⟨startStore, results0, 0, [], []⟩ with
  | .error (e, st) => ⟨.error e, st.invoked, st.skipped, st.store⟩
  | .ok st =>
    let finalResult := compileResults env st.results
    let finalStore := stateSave
      { projectId := env.projectId, projectName := env.projectName.getD "",
        startedAt := (match savedState with | some s => s.startedAt | none => now),
        lastUpdated := now, version := none,
        completedSteps := installSteps.map (·.1),
        resources := (getResources st.store env.projectId now).getD {},
        installResult := some finalResult } now
    let finalResult :=
      if isResuming ∧ st.skipped ≠ [] then
        { finalResult with resumedInstallation := true, skippedSteps := st.skipped }
      else finalResult
    ⟨.ok finalResult, st.invoked, st.skipped, finalStore⟩

/-! ## JSON values (secure-storage.ts)

`sanitizeForStorage`, `SecureStorage` and `SimpleEncryption` operate on
arbitrary JSON-serializable values and on JS strings at the code-unit
level.  JSON values are embedded with strings as UTF-16 code-unit lists
and numbers as integers (the persisted records carry no fractional
numbers; JS renders integers below 2^53 in plain decimal). -/

/-- A JSON-serializable JS value. -/
inductive JVal where
  | null
  | bool (b : Bool)
  | num (n : Int)
  | str (s : List Nat)
  | arr (elems : List JVal)
  | obj (entries : List (List Nat × JVal))

/-- UTF-16 code units of a string literal (all our literals are ASCII). -/
def codesOf (s : String) : List Nat :=
  s.data.map (·.toNat)

/-- ASCII lowercasing of one code unit (the keys this code lowercases are
ASCII identifiers). -/
def lowerCode (u : Nat) : Nat :=
  if 65 ≤ u ∧ u ≤ 90 then u + 32 else u

/-- ASCII decimal code units of a natural number (JS array index keys as
produced by `Object.entries`). -/
def natToDecCodes (n : Nat) : List Nat :=
  (natDigits n).map (· + 48)

/-- The `sensitiveFields` list of `sanitizeForStorage`. -/
def sensitiveFields : List (List Nat) :=
  [codesOf "token", codesOf "password", codesOf "secret", codesOf "key", codesOf "apiKey"]

/-- `lowerKey.includes(field)` over the `sensitiveFields`. -/
def isSensitiveKey (k : List Nat) : Bool :=
  sensitiveFields.any fun f => hasSub (k.map lowerCode) f

/-- The replacement text for a sensitive string value. -/
def PROTECTED : List Nat :=
  codesOf "[PROTECTED]"

/-- `typeof v === 'object' && v !== null`. -/
def isObjLike : JVal → Bool
  | .arr _ => true
  | .obj _ => true
  | _ => false

/-- The masked value of a sensitive string: `value ? PROTECTED : empty`. -/
def maskJStr (s : List Nat) : List Nat :=
  if s = [] then [] else PROTECTED

mutual

/-- The inner `sanitizeObject` of `sanitizeForStorage`. -/
def sanitizeObject : JVal → JVal
  | .obj es => .obj (sanitizeEntries es)
  | .arr l => .arr (sanitizeArrEls 0 l)
  | v => v
termination_by v => (sizeOf v, 0)

/-- `Object.entries` iteration over an object. -/
def sanitizeEntries : List (List Nat × JVal) → List (List Nat × JVal)
  | [] => []
  | (k, v) :: rest => (k, sanitizeEntryVal k v) :: sanitizeEntries rest
termination_by es => (sizeOf es, 0)

/-- `Object.entries` iteration over an array: keys are decimal indices and
the rebuilt container is an array. -/
def sanitizeArrEls : Nat → List JVal → List JVal
  | _, [] => []
  | i, v :: rest => sanitizeEntryVal (natToDecCodes i) v :: sanitizeArrEls (i + 1) rest
termination_by _ l => (sizeOf l, 0)

/-- One entry: mask a string under a sensitive key, recurse into objects
and arrays (`typeof value === 'object' && value !== null`), keep everything
else. -/
def sanitizeEntryVal (k : List Nat) (v : JVal) : JVal :=
  if isSensitiveKey k then
    match v with
    | .str s => .str (maskJStr s)
    | .obj es => sanitizeObject (.obj es)
    | .arr l => sanitizeObject (.arr l)
    | w => w
  else
    match v with
    | .obj es => sanitizeObject (.obj es)
    | .arr l => sanitizeObject (.arr l)
    | w => w
termination_by (sizeOf v, 1)

end

/-- `{...data}` on an array: an object keyed by decimal indices. -/
def spreadArr : Nat → List JVal → List (List Nat × JVal)
  | _, [] => []
  | i, v :: rest => (natToDecCodes i, v) :: spreadArr (i + 1) rest

/-- `sanitizeForStorage`: primitives pass through, the top-level value is
shallow-copied with `{...data}` (which turns a top-level array into an
index-keyed object) and handed to `sanitizeObject`. -/
def sanitizeForStorage (v : JVal) : JVal :=
  match v with
  | .obj es => sanitizeObject (.obj es)
  | .arr l => sanitizeObject (.obj (spreadArr 0 l))
  | x => x

/-- Sensitivity per the specification sentence: the lowercased key contains
`token`, `password`, `secret` or `key` (the source list carries a fifth,
redundant `apiKey` entry which can never match a lowercased key). -/
def claimSensitive (k : List Nat) : Bool :=
  [codesOf "token", codesOf "password", codesOf "secret", codesOf "key"].any fun f =>
    hasSub (k.map lowerCode) f

mutual

/-- Modelled from the claim wording (the spec side of the refinement):
every string-valued field whose lowercased key contains a sensitive
substring is replaced by `[PROTECTED]` (empty stays empty), recursively
through nested objects and arrays; every other field is kept. -/
def claimSanitize : JVal → JVal
  | .obj es => .obj (claimSanitizeEntries es)
  | .arr l => .arr (claimSanitizeList l)
  | v => v

/-- Entry treatment per the claim wording. -/
def claimSanitizeEntries : List (List Nat × JVal) → List (List Nat × JVal)
  | [] => []
  | (k, .str s) :: rest =>
    (if claimSensitive k then (k, .str (maskJStr s)) else (k, .str s)) ::
      claimSanitizeEntries rest
  | (k, v) :: rest => (k, claimSanitize v) :: claimSanitizeEntries rest

/-- Array elements per the claim wording. -/
def claimSanitizeList : List JVal → List JVal
  | [] => []
  | v :: rest => claimSanitize v :: claimSanitizeList rest

end

mutual

/-- No string under a sensitive key anywhere in the value is anything but
`[PROTECTED]` or empty. -/
def maskedB : JVal → Bool
  | .obj es => maskedEntries es
  | .arr l => maskedList l
  | _ => true

/-- `maskedB` over object entries. -/
def maskedEntries : List (List Nat × JVal) → Bool
  | [] => true
  | (k, v) :: rest =>
    (if claimSensitive k then
      match v with
      | .str s => s = [] || s = PROTECTED
      | _ => true
     else true) && maskedB v && maskedEntries rest

/-- `maskedB` over array elements. -/
def maskedList : List JVal → Bool
  | [] => true
  | v :: rest => maskedB v && maskedList rest

end

/-! ## SimpleEncryption (secure-storage.ts lines 8-37)

`encrypt` XORs each UTF-16 code unit with the key and applies the
Unicode-safe base64 idiom `btoa(unescape(encodeURIComponent(x)))`, whose
net effect is base64 over the UTF-8 bytes of the string (and a `URIError`
on a lone surrogate, modelled as `none`).  `decrypt` applies the inverse
idiom `decodeURIComponent(escape(atob(e)))` and XORs again, returning the
empty string on any failure (the `catch` branch).  JS strings are lists of
UTF-16 code units. -/

/-- Is the unit a high (leading) surrogate? -/
def isHighSurr (u : Nat) : Bool :=
  55296 ≤ u ∧ u ≤ 56319

/-- Is the unit a low (trailing) surrogate? -/
def isLowSurr (u : Nat) : Bool :=
  56320 ≤ u ∧ u ≤ 57343

/-- Code points of a UTF-16 unit sequence, pairing surrogates; `none` on a
lone surrogate (where `encodeURIComponent` throws). -/
def utf16ToCodepoints : List Nat → Option (List Nat)
  | [] => some []
  | [u] =>
    if isHighSurr u then none
    else if isLowSurr u then none
    else some [u]
  | u :: l :: rest =>
    if isHighSurr u then
      if isLowSurr l then
        (utf16ToCodepoints rest).map
          ((65536 + (u - 55296) * 1024 + (l - 56320)) :: ·)
      else none
    else if isLowSurr u then none
    else (utf16ToCodepoints (l :: rest)).map (u :: ·)

/-- UTF-16 units of one code point. -/
def codepointToUtf16 (cp : Nat) : List Nat :=
  if cp < 65536 then [cp]
  else [55296 + (cp - 65536) / 1024, 56320 + (cp - 65536) % 1024]

/-- UTF-16 units of a code-point sequence. -/
def codepointsToUtf16 : List Nat → List Nat
  | [] => []
  | cp :: rest => codepointToUtf16 cp ++ codepointsToUtf16 rest

/-- UTF-8 bytes of one code point. -/
def utf8EncodeChar (cp : Nat) : List Nat :=
  if cp < 128 then [cp]
  else if cp < 2048 then [192 + cp / 64, 128 + cp % 64]
  else if cp < 65536 then [224 + cp / 4096, 128 + cp / 64 % 64, 128 + cp % 64]
  else [240 + cp / 262144, 128 + cp / 4096 % 64, 128 + cp / 64 % 64, 128 + cp % 64]

/-- UTF-8 bytes of a code-point sequence. -/
def utf8Encode : List Nat → List Nat
  | [] => []
  | cp :: rest => utf8EncodeChar cp ++ utf8Encode rest

mutual

/-- Code points of a UTF-8 byte sequence (the decoding performed by
`decodeURIComponent`); `none` on a malformed sequence (where it throws). -/
def utf8Decode : List Nat → Option (List Nat)
  | [] => some []
  | b :: rest =>
    if b < 128 then (utf8Decode rest).map (b :: ·)
    else if b < 192 then none
    else if b < 224 then utf8Cont1 b rest
    else if b < 240 then utf8Cont2 b rest
    else if b < 248 then utf8Cont3 b rest
    else none
termination_by l => (l.length, 0)

/-- One continuation byte of a 2-byte sequence. -/
def utf8Cont1 (b : Nat) : List Nat → Option (List Nat)
  | b1 :: rest =>
    if 128 ≤ b1 ∧ b1 < 192 then
      (utf8Decode rest).map (((b - 192) * 64 + (b1 - 128)) :: ·)
    else none
  | [] => none
termination_by l => (l.length, 1)

/-- Two continuation bytes of a 3-byte sequence. -/
def utf8Cont2 (b : Nat) : List Nat → Option (List Nat)
  | b1 :: b2 :: rest =>
    if (128 ≤ b1 ∧ b1 < 192) ∧ (128 ≤ b2 ∧ b2 < 192) then
      (utf8Decode rest).map
        (((b - 224) * 4096 + (b1 - 128) * 64 + (b2 - 128)) :: ·)
    else none
  | _ => none
termination_by l => (l.length, 1)

/-- Three continuation bytes of a 4-byte sequence. -/
def utf8Cont3 (b : Nat) : List Nat → Option (List Nat)
  | b1 :: b2 :: b3 :: rest =>
    if (128 ≤ b1 ∧ b1 < 192) ∧ (128 ≤ b2 ∧ b2 < 192) ∧ (128 ≤ b3 ∧ b3 < 192) then
      (utf8Decode rest).map
        (((b - 240) * 262144 + (b1 - 128) * 4096 + (b2 - 128) * 64 + (b3 - 128)) :: ·)
    else none
  | _ => none
termination_by l => (l.length, 1)

end

/-- The base64 alphabet (ASCII codes). -/
def b64Char (n : Nat) : Nat :=
  if n < 26 then 65 + n
  else if n < 52 then 97 + (n - 26)
  else if n < 62 then 48 + (n - 52)
  else if n = 62 then 43
  else 47

/-- Inverse of the base64 alphabet; `none` off the alphabet (where `atob`
throws). -/
def b64Val (c : Nat) : Option Nat :=
  if 65 ≤ c ∧ c ≤ 90 then some (c - 65)
  else if 97 ≤ c ∧ c ≤ 122 then some (c - 97 + 26)
  else if 48 ≤ c ∧ c ≤ 57 then some (c - 48 + 52)
  else if c = 43 then some 62
  else if c = 47 then some 63
  else none

/-- `btoa`: base64 of a byte sequence (padding char `=` is code 61). -/
def b64Encode : List Nat → List Nat
  | [] => []
  | [a] => [b64Char (a / 4), b64Char (a % 4 * 16), 61, 61]
  | [a, b] => [b64Char (a / 4), b64Char (a % 4 * 16 + b / 16), b64Char (b % 16 * 4), 61]
  | a :: b :: c :: rest =>
    b64Char (a / 4) :: b64Char (a % 4 * 16 + b / 16) :: b64Char (b % 16 * 4 + c / 64) ::
      b64Char (c % 64) :: b64Encode rest

/-- `atob`: bytes of a base64 string; `none` on malformed input. -/
def b64Decode : List Nat → Option (List Nat)
  | [] => some []
  | c1 :: c2 :: c3 :: c4 :: rest =>
    (b64Val c1).bind fun v1 =>
    (b64Val c2).bind fun v2 =>
    if c3 = 61 ∧ c4 = 61 ∧ rest = [] then some [v1 * 4 + v2 / 16]
    else
      (b64Val c3).bind fun v3 =>
      if c4 = 61 ∧ rest = [] then some [v1 * 4 + v2 / 16, v2 % 16 * 16 + v3 / 4]
      else
        (b64Val c4).bind fun v4 =>
        (b64Decode rest).map fun bs =>
          (v1 * 4 + v2 / 16) :: (v2 % 16 * 16 + v3 / 4) :: (v3 % 4 * 64 + v4) :: bs
  | _ => none

/-- The key `anava-installer-2024` as character codes. -/
def keyCodes : List Nat :=
  codesOf "anava-installer-2024"

/-- XOR each unit with `key.charCodeAt(i % key.length)` starting at
index `i`. -/
def xorKeyGo (i : Nat) : List Nat → List Nat
  | [] => []
  | u :: rest => (u ^^^ keyCodes.getD (i % keyCodes.length) 0) :: xorKeyGo (i + 1) rest

/-- The XOR pass of `SimpleEncryption` over a whole string. -/
def xorKey (units : List Nat) : List Nat :=
  xorKeyGo 0 units

/-- `SimpleEncryption.encrypt`. -/
def SimpleEncryption.encrypt (s : List Nat) : Option (List Nat) :=
  (utf16ToCodepoints (xorKey s)).map fun cps => b64Encode (utf8Encode cps)

/-- `SimpleEncryption.decrypt`. -/
def SimpleEncryption.decrypt (e : List Nat) : List Nat :=
  match b64Decode e with
  | none => []
  | some bytes =>
    match utf8Decode bytes with
    | none => []
    | some cps => xorKey (codepointsToUtf16 cps)

/-! ## JSON.stringify and JSON.parse

`SecureStorage.setItem` stringifies the value before encrypting, and
`getItem` parses it back after decrypting.  JSON strings are escaped and
unescaped per the JSON grammar; numbers are the embedded integers in plain
decimal (the persisted records carry no fractional numbers; fraction and
exponent forms are out of scope). -/

/-- Lowercase hex digit code. -/
def hexDigitCode (n : Nat) : Nat :=
  if n < 10 then 48 + n else 97 + (n - 10)

/-- JSON escape of one code unit (`"` and `\` escaped, control characters
as `\b \t \n \f \r` or `\u00XX`). -/
def escapeUnit (u : Nat) : List Nat :=
  if u = 34 then [92, 34]
  else if u = 92 then [92, 92]
  else if u = 8 then [92, 98]
  else if u = 9 then [92, 116]
  else if u = 10 then [92, 110]
  else if u = 12 then [92, 102]
  else if u = 13 then [92, 114]
  else if u < 32 then [92, 117, 48, 48, hexDigitCode (u / 16), hexDigitCode (u % 16)]
  else [u]

/-- JSON escape of a whole string body. -/
def escapeStr : List Nat → List Nat
  | [] => []
  | u :: rest => escapeUnit u ++ escapeStr rest

/-- A quoted, escaped JSON string. -/
def quoteStr (s : List Nat) : List Nat :=
  34 :: escapeStr s ++ [34]

/-- Decimal rendering of an integer. -/
def intCodes (i : Int) : List Nat :=
  if i < 0 then 45 :: natToDecCodes i.natAbs else natToDecCodes i.toNat

mutual

/-- `JSON.stringify`. -/
def jsonStringify : JVal → List Nat
  | .null => codesOf "null"
  | .bool true => codesOf "true"
  | .bool false => codesOf "false"
  | .num i => intCodes i
  | .str s => quoteStr s
  | .arr l => 91 :: jsonStringifyArr l ++ [93]
  | .obj es => 123 :: jsonStringifyObj es ++ [125]
termination_by v => (sizeOf v, 0)

/-- Comma-joined array elements. -/
def jsonStringifyArr : List JVal → List Nat
  | [] => []
  | [v] => jsonStringify v
  | v :: rest => jsonStringify v ++ 44 :: jsonStringifyArr rest
termination_by l => (sizeOf l, 1)

/-- Comma-joined `"key":value` object entries. -/
def jsonStringifyObj : List (List Nat × JVal) → List Nat
  | [] => []
  | [(k, v)] => quoteStr k ++ 58 :: jsonStringify v
  | (k, v) :: rest => quoteStr k ++ 58 :: jsonStringify v ++ 44 :: jsonStringifyObj rest
termination_by es => (sizeOf es, 1)

end

/-- Skip JSON whitespace. -/
def skipWs : List Nat → List Nat
  | [] => []
  | u :: rest => if u = 32 ∨ u = 9 ∨ u = 10 ∨ u = 13 then skipWs rest else u :: rest

/-- Value of one hex digit (upper or lower case). -/
def hexVal (c : Nat) : Option Nat :=
  if 48 ≤ c ∧ c ≤ 57 then some (c - 48)
  else if 97 ≤ c ∧ c ≤ 102 then some (c - 97 + 10)
  else if 65 ≤ c ∧ c ≤ 70 then some (c - 65 + 10)
  else none

mutual

/-- Parse a JSON string body after the opening quote, returning the
decoded units and the remainder after the closing quote. -/
def parseStrBody : List Nat → Option (List Nat × List Nat)
  | [] => none
  | u :: rest =>
    if u = 34 then some ([], rest)
    else if u = 92 then parseEsc rest
    else if u < 32 then none
    else (parseStrBody rest).map fun p => (u :: p.1, p.2)
termination_by l => l.length

/-- Parse the character after a backslash. -/
def parseEsc : List Nat → Option (List Nat × List Nat)
  | [] => none
  | e :: rest =>
    if e = 34 then (parseStrBody rest).map fun p => (34 :: p.1, p.2)
    else if e = 92 then (parseStrBody rest).map fun p => (92 :: p.1, p.2)
    else if e = 47 then (parseStrBody rest).map fun p => (47 :: p.1, p.2)
    else if e = 98 then (parseStrBody rest).map fun p => (8 :: p.1, p.2)
    else if e = 116 then (parseStrBody rest).map fun p => (9 :: p.1, p.2)
    else if e = 110 then (parseStrBody rest).map fun p => (10 :: p.1, p.2)
    else if e = 102 then (parseStrBody rest).map fun p => (12 :: p.1, p.2)
    else if e = 114 then (parseStrBody rest).map fun p => (13 :: p.1, p.2)
    else if e = 117 then parseHex4 rest
    else none
termination_by l => l.length

/-- Parse the four hex digits of a unicode escape. -/
def parseHex4 : List Nat → Option (List Nat × List Nat)
  | h1 :: h2 :: h3 :: h4 :: rest =>
    (hexVal h1).bind fun a =>
    (hexVal h2).bind fun b =>
    (hexVal h3).bind fun c =>
    (hexVal h4).bind fun d =>
    (parseStrBody rest).map fun p => ((a * 4096 + b * 256 + c * 16 + d) :: p.1, p.2)
  | _ => none
termination_by l => l.length

end

/-- Accumulate decimal digits. -/
def parseDigitsGo (acc : Nat) : List Nat → Nat × List Nat
  | [] => (acc, [])
  | c :: rest =>
    if 48 ≤ c ∧ c ≤ 57 then parseDigitsGo (acc * 10 + (c - 48)) rest else (acc, c :: rest)

/-- Parse the digits after a leading minus sign. -/
def parseNegNumber : List Nat → Option (Int × List Nat)
  | [] => none
  | d :: rest =>
    if 48 ≤ d ∧ d ≤ 57 then
      let p := parseDigitsGo 0 (d :: rest)
      some (-(p.1 : Int), p.2)
    else none

/-- Parse an integer JSON number. -/
def parseNumber : List Nat → Option (Int × List Nat)
  | [] => none
  | c :: rest =>
    if c = 45 then parseNegNumber rest
    else if 48 ≤ c ∧ c ≤ 57 then
      let p := parseDigitsGo 0 (c :: rest)
      some ((p.1 : Int), p.2)
    else none

/-- The four-unit tail of the keyword `null`. -/
def parseNullTail : List Nat → Option (JVal × List Nat)
  | 117 :: 108 :: 108 :: r => some (.null, r)
  | _ => none

/-- The tail of the keyword `true`. -/
def parseTrueTail : List Nat → Option (JVal × List Nat)
  | 114 :: 117 :: 101 :: r => some (.bool true, r)
  | _ => none

/-- The tail of the keyword `false`. -/
def parseFalseTail : List Nat → Option (JVal × List Nat)
  | 97 :: 108 :: 115 :: 101 :: r => some (.bool false, r)
  | _ => none

mutual

/-- Recursive-descent JSON value parse (fuel-indexed). -/
def parseVal : Nat → List Nat → Option (JVal × List Nat)
  | 0, _ => none
  | fuel + 1, l => parseValAt fuel (skipWs l)
termination_by fuel _ => (fuel, 1)

/-- Dispatch on the first non-whitespace unit of a value. -/
def parseValAt : Nat → List Nat → Option (JVal × List Nat)
  | _, [] => none
  | fuel, c :: rest =>
    if c = 110 then parseNullTail rest
    else if c = 116 then parseTrueTail rest
    else if c = 102 then parseFalseTail rest
    else if c = 34 then (parseStrBody rest).map fun p => (.str p.1, p.2)
    else if c = 91 then parseArrStart fuel (skipWs rest)
    else if c = 123 then parseObjStart fuel (skipWs rest)
    else (parseNumber (c :: rest)).map fun p => (.num p.1, p.2)
termination_by fuel _ => (fuel, 6)

/-- After the opening bracket: empty array or elements. -/
def parseArrStart : Nat → List Nat → Option (JVal × List Nat)
  | _, [] => none
  | fuel, d :: r2 =>
    if d = 93 then some (.arr [], r2)
    else (parseArrTail fuel (d :: r2)).map fun p => (.arr p.1, p.2)
termination_by fuel _ => (fuel, 3)

/-- Parse the elements of a nonempty array after the opening bracket. -/
def parseArrTail : Nat → List Nat → Option (List JVal × List Nat)
  | 0, _ => none
  | fuel + 1, l => (parseVal fuel l).bind fun p => parseArrSep fuel p.1 (skipWs p.2)
termination_by fuel _ => (fuel, 2)

/-- After one array element: comma and more elements, or close bracket. -/
def parseArrSep : Nat → JVal → List Nat → Option (List JVal × List Nat)
  | _, _, [] => none
  | fuel, v, d :: r =>
    if d = 44 then (parseArrTail fuel r).map fun p => (v :: p.1, p.2)
    else if d = 93 then some ([v], r)
    else none
termination_by fuel _ _ => (fuel, 3)

/-- After the opening brace: empty object or entries. -/
def parseObjStart : Nat → List Nat → Option (JVal × List Nat)
  | _, [] => none
  | fuel, d :: r2 =>
    if d = 125 then some (.obj [], r2)
    else (parseObjTail fuel (d :: r2)).map fun p => (.obj p.1, p.2)
termination_by fuel _ => (fuel, 3)

/-- Parse the entries of a nonempty object after the opening brace. -/
def parseObjTail : Nat → List Nat → Option (List (List Nat × JVal) × List Nat)
  | 0, _ => none
  | fuel + 1, l => parseObjKey fuel (skipWs l)
termination_by fuel _ => (fuel, 2)

/-- Parse a quoted entry key. -/
def parseObjKey : Nat → List Nat → Option (List (List Nat × JVal) × List Nat)
  | _, [] => none
  | fuel, q :: r =>
    if q = 34 then (parseStrBody r).bind fun kp => parseObjColon fuel kp.1 (skipWs kp.2)
    else none
termination_by fuel _ => (fuel, 5)

/-- Parse the colon and the entry value. -/
def parseObjColon : Nat → List Nat → List Nat → Option (List (List Nat × JVal) × List Nat)
  | _, _, [] => none
  | fuel, k, col :: r2 =>
    if col = 58 then (parseVal fuel r2).bind fun vp => parseObjSep fuel k vp.1 (skipWs vp.2)
    else none
termination_by fuel _ _ => (fuel, 4)

/-- After one entry: comma and more entries, or close brace. -/
def parseObjSep : Nat → List Nat → JVal → List Nat →
    Option (List (List Nat × JVal) × List Nat)
  | _, _, _, [] => none
  | fuel, k, v, d :: r4 =>
    if d = 44 then (parseObjTail fuel r4).map fun p => ((k, v) :: p.1, p.2)
    else if d = 125 then some ([(k, v)], r4)
    else none
termination_by fuel _ _ _ => (fuel, 3)

end

/-- `JSON.parse` (null on failure, as used through the `try` in
`getItem`): the whole input must be one value followed only by
whitespace. -/
def jsonParse (l : List Nat) : Option JVal :=
  match parseVal (l.length + 1) l with
  | some (v, rest) => if skipWs rest = [] then some v else none
  | none => none

/-- The remainder after a rendered number: empty or led by a non-digit
(all the contexts in which `jsonStringify` places a number). -/
def nonDigitLead (rest : List Nat) : Prop :=
  rest = [] ∨ ∃ c t, rest = c :: t ∧ ¬(48 ≤ c ∧ c ≤ 57)

mutual

/-- Parser fuel sufficient for a value. -/
def jfuel : JVal → Nat
  | .arr l => 1 + jfuelArr l
  | .obj es => 1 + jfuelObj es
  | _ => 1

/-- Parser fuel sufficient for array elements. -/
def jfuelArr : List JVal → Nat
  | [] => 0
  | v :: vs => 1 + max (jfuel v) (jfuelArr vs)

/-- Parser fuel sufficient for object entries. -/
def jfuelObj : List (List Nat × JVal) → Nat
  | [] => 0
  | (_, v) :: es => 1 + max (jfuel v) (jfuelObj es)

end

/-- A well-formed JS string: UTF-16 units below 2^16 with no lone
surrogate. -/
def validStr (s : List Nat) : Bool :=
  (utf16ToCodepoints s).isSome && s.all (· < 65536)

mutual

/-- Every string (and key) in the value is a well-formed JS string. -/
def jvalWF : JVal → Bool
  | .str s => validStr s
  | .arr l => jvalWFList l
  | .obj es => jvalWFEntries es
  | _ => true
termination_by v => (sizeOf v, 0)

/-- `jvalWF` over array elements. -/
def jvalWFList : List JVal → Bool
  | [] => true
  | v :: vs => jvalWF v && jvalWFList vs
termination_by l => (sizeOf l, 1)

/-- `jvalWF` over object entries. -/
def jvalWFEntries : List (List Nat × JVal) → Bool
  | [] => true
  | (k, v) :: es => validStr k && jvalWF v && jvalWFEntries es
termination_by es => (sizeOf es, 1)

end

/-- `SecureStorage.setItem`: stringify, encrypt, store; on a thrown error
nothing is stored (`none`). -/
def SecureStorage.setItem (v : JVal) : Option (List Nat) :=
  SimpleEncryption.encrypt (jsonStringify v)

/-- `SecureStorage.getItem` on the stored cell: decrypt and parse, with
`null` for a missing item, a falsy decryption result, or a parse error. -/
def SecureStorage.getItem (cell : Option (List Nat)) : Option JVal :=
  match cell with
  | none => none
  | some enc =>
    let d := SimpleEncryption.decrypt enc
    if d = [] then none else jsonParse d

/-- `{...state, lastUpdated: now, version: CURRENT_VERSION}` at the JSON
level: replace the key if present, else append it. -/
def setKeyJ (es : List (List Nat × JVal)) (k : List Nat) (v : JVal) :
    List (List Nat × JVal) :=
  if es.any (·.1 = k) then es.map fun e => if e.1 = k then (k, v) else e
  else es ++ [(k, v)]

/-- The JSON value persisted by `InstallationStateManager.save`: timestamp
and version stamped, then sanitized (the `SecureStorage.setItem` encryption
below it is value-preserving, see the `SimpleEncryption` section). -/
def saveStoredJson (es : List (List Nat × JVal)) (nowIso ver : List Nat) : JVal :=
  sanitizeForStorage
    (.obj (setKeyJ (setKeyJ es (codesOf "lastUpdated") (.str nowIso)) (codesOf "version")
      (.str ver)))

end AnavaInstaller

namespace AnavaInstaller

/-! ## Theorems: staleness (C5) and version-forced re-run (C4) -/

/-- Convenience: the staleness test of `stateLoad` in integer form. -/
theorem stale_iff (now last : Int) :
    (((now - last : Int) : ℚ) / (1000 * 60 * 60) > 24) ↔ now - last > 86400000 := by
  rw [gt_iff_lt, lt_div_iff₀ (by norm_num : (0:ℚ) < 1000 * 60 * 60)]
  norm_num
  exact_mod_cast Iff.rfl

/-- A fresh record for the requested project is returned by `load`. -/
theorem stateLoad_eq_some (st : Store) (s : SavedInstallationState) (pid : String) (now : Int)
    (hstore : st.stored = some s) (hpid : s.projectId = pid)
    (hfresh : now - s.lastUpdated ≤ 86400000) :
    stateLoad st pid now = some s := by
  simp only [stateLoad, hstore]
  rw [if_neg (by simp [hpid]), if_neg (by rw [stale_iff]; omega)]

/-- C5: `load(projectId)` returns `null` (fresh install) whenever the stored
record belongs to a different `projectId` or its `lastUpdated` timestamp is
more than 24 hours before the current time, and returns the stored record
otherwise. -/
theorem load_staleness (st : Store) (pid : String) (now : Int) :
    (∀ s, st.stored = some s → s.projectId ≠ pid → stateLoad st pid now = none) ∧
    (∀ s, st.stored = some s → now - s.lastUpdated > 86400000 → stateLoad st pid now = none) ∧
    (∀ s, st.stored = some s → s.projectId = pid → now - s.lastUpdated ≤ 86400000 →
      stateLoad st pid now = some s) ∧
    (st.stored = none → stateLoad st pid now = none) := by
  refine ⟨?_, ?_, ?_, ?_⟩
  · intro s hs hne
    simp [stateLoad, hs, hne]
  · intro s hs hstale
    simp only [stateLoad, hs]
    split
    · rfl
    · rw [if_pos ((stale_iff now s.lastUpdated).mpr hstale)]
  · intro s hs hpid hfresh
    exact stateLoad_eq_some st s pid now hs hpid hfresh
  · intro h
    simp [stateLoad, h]

/-- Witness for `load_staleness` at concrete inputs. -/
theorem load_staleness_witness :
    (let s : SavedInstallationState :=
      { projectId := "demo-1", projectName := "", startedAt := 0, lastUpdated := 0,
        version := some "v2.1.2-SECURITY", completedSteps := [], resources := {},
        installResult := none };
    stateLoad { stored := some s } "demo-2" 1000 = none ∧
    stateLoad { stored := some s } "demo-1" 86400001 = none ∧
    stateLoad { stored := some s } "demo-1" 86400000 = some s) := by
  refine ⟨?_, ?_, ?_⟩
  · exact (load_staleness _ "demo-2" 1000).1 _ rfl (by decide)
  · exact (load_staleness _ "demo-1" 86400001).2.1 _ rfl (by decide)
  · exact (load_staleness _ "demo-1" 86400000).2.2.1 _ rfl rfl (by decide)

/-- C4: for a fresh, matching record listing `step` as completed, a step on
the version-critical list whose recorded version differs from the current
one (or is absent) is reported as not completed, while a step off that list
is honored regardless of the recorded version. -/
theorem version_forced_rerun (s : SavedInstallationState) (now : Int) (step : String)
    (hfresh : now - s.lastUpdated ≤ 86400000)
    (hdone : step ∈ s.completedSteps) :
    (step ∈ CRITICAL_STEPS_V2_1_2 → s.version ≠ some CURRENT_VERSION →
      hasCompletedStep { stored := some s } s.projectId now step = false) ∧
    (step ∉ CRITICAL_STEPS_V2_1_2 →
      hasCompletedStep { stored := some s } s.projectId now step = true) := by
  have hload : stateLoad { stored := some s } s.projectId now = some s :=
    stateLoad_eq_some _ s s.projectId now rfl rfl hfresh
  constructor
  · intro hcrit hver
    simp only [hasCompletedStep, hload]
    rw [if_neg (by simp [hdone]), if_pos hcrit]
    cases hv : s.version with
    | none => rfl
    | some v =>
      have hvne : v ≠ CURRENT_VERSION := fun h => hver (by rw [hv, h])
      simp [hvne]
  · intro hncrit
    simp [hasCompletedStep, hload, hdone, hncrit]

/-- Witness for `version_forced_rerun`: a record written under `v1` forces a
re-run of the critical step `Creating API Gateway`, and honors the
non-critical step `Validating project`. -/
theorem version_forced_rerun_witness :
    (let s : SavedInstallationState :=
      { projectId := "demo-1", projectName := "", startedAt := 0, lastUpdated := 0,
        version := some "v1", completedSteps := ["Creating API Gateway", "Validating project"],
        resources := {}, installResult := none };
    hasCompletedStep { stored := some s } "demo-1" 0 "Creating API Gateway" = false ∧
    hasCompletedStep { stored := some s } "demo-1" 0 "Validating project" = true) := by
  constructor
  · exact (version_forced_rerun _ 0 "Creating API Gateway" (by decide)
      (by decide)).1 (by decide) (by decide)
  · exact (version_forced_rerun _ 0 "Validating project" (by decide)
      (by decide)).2 (by decide)

/-! ## Decimal rendering lemmas (shared by the call client and JSON layers) -/

theorem natDigits_lt10 (n : Nat) : ∀ d ∈ natDigits n, d < 10 := by
  induction n using Nat.strong_induction_on with
  | _ n ih =>
    rw [natDigits]
    split
    · intro d hd
      simp only [List.mem_singleton] at hd
      omega
    · intro d hd
      rw [List.mem_append] at hd
      rcases hd with h | h
      · exact ih (n / 10) (Nat.div_lt_self (by omega) (by omega)) d h
      · simp only [List.mem_singleton] at h
        omega

theorem natDigits_ne_nil (n : Nat) : natDigits n ≠ [] := by
  rw [natDigits]
  split
  · simp
  · simp

theorem decOfDigits_aux (n : Nat) :
    ∀ a, List.foldl (fun x d => x * 10 + d) a (natDigits n) =
      a * 10 ^ (natDigits n).length + n := by
  induction n using Nat.strong_induction_on with
  | _ n ih =>
    intro a
    rw [natDigits]
    split
    · simp
    · rename_i h
      rw [List.foldl_append, ih (n / 10) (Nat.div_lt_self (by omega) (by omega)) a]
      simp only [List.foldl_cons, List.foldl_nil, List.length_append,
        List.length_singleton]
      rw [pow_succ]
      have : 10 * (n / 10) + n % 10 = n := Nat.div_add_mod n 10
      ring_nf
      omega

theorem decOfDigits_natDigits (n : Nat) : decOfDigits (natDigits n) = n := by
  rw [decOfDigits, decOfDigits_aux n 0]
  simp

theorem digitChar_toNat (d : Nat) (h : d < 10) : (digitChar d).toNat = 48 + d := by
  interval_cases d <;> rfl

theorem digitChar_isDigit (d : Nat) (h : d < 10) : (digitChar d).isDigit = true := by
  interval_cases d <;> rfl

theorem leadMatch_append_self (pre rest : List Char) :
    leadMatch pre (pre ++ rest) = true := by
  induction pre with
  | nil => rfl
  | cons a as ih => simp [leadMatch, ih]

theorem takeWhile_append_stop {p : Char → Bool} (xs : List Char) (y : Char) (ys : List Char)
    (hall : ∀ x ∈ xs, p x = true) (hy : p y = false) :
    List.takeWhile p (xs ++ y :: ys) = xs := by
  induction xs with
  | nil => simp [List.takeWhile, hy]
  | cons a as ih =>
    simp only [List.cons_append, List.takeWhile]
    rw [hall a (by simp)]
    simp only [List.cons.injEq, true_and]
    exact ih fun x hx => hall x (by simp [hx])

/-- The status code of a thrown HTTP error message is recoverable from the
message. -/
theorem statusOfMsg_gcpErrMsg (status : Nat) (body : String) :
    statusOfMsg (gcpErrMsg status body) = some status := by
  have hdata : (gcpErrMsg status body).data =
      "GCP API Error: ".data ++ (natDigits status).map digitChar ++ (" - " ++ body).data := by
    simp [gcpErrMsg, natToStr, String.data_append]
  rw [statusOfMsg, hdata]
  have hlead : leadMatch "GCP API Error: ".data
      ("GCP API Error: ".data ++ (natDigits status).map digitChar ++ (" - " ++ body).data) =
      true := by
    rw [List.append_assoc]
    exact leadMatch_append_self _ _
  rw [hlead]
  simp only [if_true]
  rw [List.append_assoc, List.drop_left]
  have hsplit : (natDigits status).map digitChar ++ (" - " ++ body).data =
      (natDigits status).map digitChar ++ ' ' :: ("- " ++ body).data := by
    simp [String.data_append]
  rw [hsplit, takeWhile_append_stop _ _ _
    (fun x hx => by
      rcases List.mem_map.mp hx with ⟨d, hd, rfl⟩
      exact digitChar_isDigit d (natDigits_lt10 status d hd))
    (by rfl)]
  rw [if_neg (by simp [natDigits_ne_nil status])]
  have hmap : List.map (fun c => c.toNat - 48) (List.map digitChar (natDigits status)) =
      natDigits status := by
    rw [List.map_map]
    have hid : ∀ d ∈ natDigits status, ((fun c : Char => c.toNat - 48) ∘ digitChar) d = d := by
      intro d hd
      show (digitChar d).toNat - 48 = d
      rw [digitChar_toNat d (natDigits_lt10 status d hd)]
      omega
    calc List.map ((fun c : Char => c.toNat - 48) ∘ digitChar) (natDigits status)
        = List.map id (natDigits status) := List.map_congr_left hid
      _ = natDigits status := List.map_id _
  rw [hmap, decOfDigits_natDigits]

/-! ## C2: retry bound -/

/-- C2: against an endpoint answering 500 on every attempt, a call with
`maxAttempts = 3` makes exactly 3 attempts, waits `attempt * 2` seconds
between consecutive attempts, and then throws an error carrying the status
code and body; against an endpoint failing twice with 500 and succeeding on
the third attempt, it returns that success payload on attempt 3. -/
theorem retry_bound (f g : Nat → FetchResult) (b p : Nat → String) (payload : String)
    (hf : ∀ n, f n = .resp 500 (b n) (p n))
    (hg1 : g 1 = .resp 500 (b 1) (p 1)) (hg2 : g 2 = .resp 500 (b 2) (p 2))
    (hg3 : g 3 = .resp 200 "" payload) :
    (gcpApiCall f).lastAttempt = 3 ∧
    (gcpApiCall f).waitsMs = [1 * 2000, 2 * 2000] ∧
    (gcpApiCall f).result = .error (gcpErrMsg 500 (b 3)) ∧
    (gcpApiCall g).result = .ok payload ∧
    (gcpApiCall g).lastAttempt = 3 := by
  have hcall : gcpApiCall f =
      ⟨.error (gcpErrMsg 500 (b 3)), 3, [1 * 2000, 2 * 2000], 300000⟩ := by
    rw [gcpApiCall]
    rw [gcpGo]
    norm_num [hf 1]
    rw [gcpGo]
    norm_num [hf 2]
    rw [gcpGo]
    norm_num [hf 3]
  have hcallg : gcpApiCall g =
      ⟨.ok payload, 3, [1 * 2000, 2 * 2000], 300000⟩ := by
    rw [gcpApiCall]
    rw [gcpGo]
    norm_num [hg1]
    rw [gcpGo]
    norm_num [hg2]
    rw [gcpGo]
    norm_num [hg3]
  rw [hcall, hcallg]
  exact ⟨rfl, rfl, rfl, rfl, rfl⟩

/-- Witness for `retry_bound`: concrete always-500 and third-time-lucky
endpoints. -/
theorem retry_bound_witness :
    (gcpApiCall fun _ => .resp 500 "oops" "").lastAttempt = 3 ∧
    (gcpApiCall fun n => if n ≤ 2 then .resp 500 "oops" "" else .resp 200 "" "ok").result =
      .ok "ok" := by
  refine ⟨(retry_bound (fun _ => .resp 500 "oops" "")
      (fun n => if n ≤ 2 then .resp 500 "oops" "" else .resp 200 "" "ok")
      (fun _ => "oops") (fun _ => "") "ok"
      (fun _ => rfl) rfl rfl rfl).1,
    (retry_bound (fun _ => .resp 500 "oops" "")
      (fun n => if n ≤ 2 then .resp 500 "oops" "" else .resp 200 "" "ok")
      (fun _ => "oops") (fun _ => "") "ok"
      (fun _ => rfl) rfl rfl rfl).2.2.2.1⟩

/-! ## C8: 401 as a distinguishable terminal failure -/

theorem leadMatch_ne_head {α : Type} [DecidableEq α] (a b : α) (as bs : List α)
    (h : a ≠ b) : leadMatch (a :: as) (b :: bs) = false := by
  rw [leadMatch]
  simp [h]

/-- The timeout message carries no `GCP API Error` status. -/
theorem statusOfMsg_timeoutErrMsg (t : Nat) : statusOfMsg (timeoutErrMsg t) = none := by
  obtain ⟨rest, hrest⟩ : ∃ rest, (timeoutErrMsg t).data = 'R' :: rest := by
    refine ⟨"equest timed out after ".data ++ ((natToStr t).data ++ "ms".data), ?_⟩
    rw [timeoutErrMsg, String.data_append, String.data_append]
    rw [show "Request timed out after ".data = 'R' :: "equest timed out after ".data
      from by decide]
    simp
  rw [statusOfMsg, hrest]
  rw [show "GCP API Error: ".data = 'G' :: "CP API Error: ".data from by decide]
  rw [leadMatch_ne_head 'G' 'R' _ _ (by decide)]
  simp

/-- When every attempt before the last fails and the last receives a
non-2xx response, the loop runs to the last attempt and throws that
attempt's `GCP API Error`. -/
theorem gcpGo_terminal (f : Nat → FetchResult) : ∀ (remaining attempt tMs : Nat)
    (waits : List Nat) (status : Nat) (body payload : String),
    (∀ i, attempt ≤ i → i < attempt + remaining → isFailure (f i)) →
    f (attempt + remaining) = .resp status body payload →
    ¬(200 ≤ status ∧ status ≤ 299) →
    (gcpGo f attempt remaining tMs waits).result = .error (gcpErrMsg status body) ∧
    (gcpGo f attempt remaining tMs waits).lastAttempt = attempt + remaining := by
  intro remaining
  induction remaining with
  | zero =>
    intro attempt tMs waits status body payload _ hfin hbad
    rw [Nat.add_zero] at hfin
    have hg : gcpGo f attempt 0 tMs waits =
        { result := .error (gcpErrMsg status body), lastAttempt := attempt,
          waitsMs := waits, timeoutMs := tMs } := by
      rw [gcpGo]
      simp only [hfin]
      rw [if_neg hbad, dif_neg (by omega)]
    exact ⟨by rw [hg], by rw [hg, Nat.add_zero]⟩
  | succ n ih =>
    intro attempt tMs waits status body payload hfail hfin hbad
    have hcur : isFailure (f attempt) := hfail attempt (le_refl _) (by omega)
    have hfin2 : f (attempt + 1 + n) = .resp status body payload := by
      rw [show attempt + 1 + n = attempt + (n + 1) from by omega]
      exact hfin
    have hfail2 : ∀ i, attempt + 1 ≤ i → i < attempt + 1 + n → isFailure (f i) :=
      fun i h1 h2 => hfail i (by omega) (by omega)
    rw [gcpGo]
    cases hfa : f attempt with
    | resp s b pl =>
      rw [hfa, isFailure] at hcur
      simp only [hfa]
      rw [if_neg hcur, dif_pos (by omega)]
      simp only [Nat.add_sub_cancel]
      have hrec := ih (attempt + 1) tMs (waits ++ [attempt * 2000]) status body payload
        hfail2 hfin2 hbad
      exact ⟨hrec.1, by rw [hrec.2]; omega⟩
    | timedOut =>
      simp only [hfa]
      rw [dif_pos (by omega)]
      simp only [Nat.add_sub_cancel]
      have hrec := ih (attempt + 1) (min (tMs * 3 / 2) 600000)
        (waits ++ [attempt * 2000]) status body payload hfail2 hfin2 hbad
      exact ⟨hrec.1, by rw [hrec.2]; omega⟩
    | netErr m =>
      simp only [hfa]
      rw [dif_pos (by omega)]
      simp only [Nat.add_sub_cancel]
      have hrec := ih (attempt + 1) tMs (waits ++ [attempt * 2000]) status body payload
        hfail2 hfin2 hbad
      exact ⟨hrec.1, by rw [hrec.2]; omega⟩

/-- C8: whenever a call terminates with a 401-status failure — the final
attempt received the 401; like every non-2xx response, an earlier 401 is
retried by the catch while attempts remain — the error propagated to the
caller embeds the status code 401 and the response body, and the embedded
status distinguishes this terminal failure from the thrown error of every
other status and from a timeout. -/
theorem unauthorized_distinct (f : Nat → FetchResult) (retries tMs : Nat)
    (body payload : String) (hr : 1 ≤ retries)
    (hfail : ∀ i, 1 ≤ i → i < retries → isFailure (f i))
    (h401 : f retries = .resp 401 body payload) :
    (gcpApiCall f retries tMs).result = .error (gcpErrMsg 401 body) ∧
    (gcpApiCall f retries tMs).lastAttempt = retries ∧
    statusOfMsg (gcpErrMsg 401 body) = some 401 ∧
    (∀ status body2, status ≠ 401 → statusOfMsg (gcpErrMsg status body2) ≠ some 401) ∧
    (∀ t, statusOfMsg (timeoutErrMsg t) ≠ some 401) := by
  have hterm := gcpGo_terminal f (retries - 1) 1 tMs [] 401 body payload
    (fun i h1 h2 => hfail i h1 (by omega))
    (by rw [show 1 + (retries - 1) = retries from by omega]; exact h401)
    (by omega)
  rw [gcpApiCall]
  refine ⟨hterm.1, by rw [hterm.2]; omega, statusOfMsg_gcpErrMsg 401 body, ?_, ?_⟩
  · intro status body2 hne hcontra
    rw [statusOfMsg_gcpErrMsg status body2] at hcontra
    exact hne (Option.some.inj hcontra)
  · intro t hcontra
    rw [statusOfMsg_timeoutErrMsg t] at hcontra
    exact Option.noConfusion hcontra

/-- Witness for `unauthorized_distinct`: an endpoint answering 401 on every
attempt, under the default budget of 3 attempts. -/
theorem unauthorized_distinct_witness :
    (gcpApiCall (fun _ => .resp 401 "Unauthorized" "") 3 300000).result =
      .error (gcpErrMsg 401 "Unauthorized") ∧
    (gcpApiCall (fun _ => .resp 401 "Unauthorized" "") 3 300000).lastAttempt = 3 ∧
    statusOfMsg (gcpErrMsg 403 "Forbidden") ≠ some 401 ∧
    statusOfMsg (timeoutErrMsg 300000) ≠ some 401 := by
  have h := unauthorized_distinct (fun _ => .resp 401 "Unauthorized" "") 3 300000
    "Unauthorized" "" (by omega) (fun i _ _ => by simp [isFailure]) rfl
  exact ⟨h.1, h.2.1, h.2.2.2.1 403 "Forbidden" (by omega), h.2.2.2.2 300000⟩

/-! ## C7: prerequisites short-circuit -/

/-- The reporting short-circuit holds for every flag assignment. -/
theorem missingStepNames_gating (f : PrereqFlags) :
    (f.authConfigured = false → "Enable Email/Password Sign-in" ∉ missingStepNames f) ∧
    ("Create a Test User" ∈ missingStepNames f → f.emailPasswordEnabled = true) ∧
    ("Initialize Firebase Authentication" ∈ missingStepNames f → f.firebaseEnabled = true) ∧
    ("Enable Email/Password Sign-in" ∈ missingStepNames f → f.authConfigured = true) := by
  obtain ⟨fb, st, fs, ac, ep, us⟩ := f
  cases fb <;> cases st <;> cases fs <;> cases ac <;> cases ep <;> cases us <;>
    simp [missingStepNames]

/-- C7: in every prerequisites evaluation that blocks, the emitted
remediation list omits the email/password item when authentication is not
initialized; the test-user item appears only when email/password sign-in
itself passed, the auth-initialization item only when Firebase itself
passed, and the email/password item only when authentication is
initialized. -/
theorem prereq_short_circuit (p : PrereqProbe) (l : List String)
    (h : checkPrerequisites p = .error l) :
    ((computeFlags p).authConfigured = false → "Enable Email/Password Sign-in" ∉ l) ∧
    ("Create a Test User" ∈ l → (computeFlags p).emailPasswordEnabled = true) ∧
    ("Initialize Firebase Authentication" ∈ l → (computeFlags p).firebaseEnabled = true) ∧
    ("Enable Email/Password Sign-in" ∈ l → (computeFlags p).authConfigured = true) := by
  have hl : l = missingStepNames (computeFlags p) := by
    rw [checkPrerequisites] at h
    split at h
    · exact (Except.error.inj h).symm
    · exact absurd h (by simp)
  rw [hl]
  exact missingStepNames_gating (computeFlags p)

/-- Witness for `prereq_short_circuit`: Firebase enabled but authentication
not initialized (the auth-config probe fails); the email/password item is
absent even though the condition is unmet. -/
theorem prereq_short_circuit_witness :
    (let p : PrereqProbe :=
      { firebaseOk := true, storageOk := true, firestoreOk := true,
        authConfig := .error "404", usersNonEmpty := .error "404" };
    "Enable Email/Password Sign-in" ∉
      missingStepNames (computeFlags p)) := by
  intro p
  exact (prereq_short_circuit p (missingStepNames (computeFlags p)) rfl).1 rfl

/-! ## C1: resume correctness -/

theorem orO_none {α : Type} (c : Option α) : orO none c = c := rfl

theorem getRes_setR_same (r : Results) (k : String) (v : RVal) :
    getRes (setR r k v) k = some v := by
  induction r with
  | nil => simp [setR, getRes]
  | cons e rest ih =>
    obtain ⟨k', v'⟩ := e
    rw [setR]
    split
    · simp [getRes]
    · rename_i hne
      rw [getRes, if_neg hne]
      exact ih

theorem getRes_setR_ne (r : Results) (k k' : String) (v : RVal) (h : k ≠ k') :
    getRes (setR r k v) k' = getRes r k' := by
  induction r with
  | nil => simp [setR, getRes, h]
  | cons e rest ih =>
    obtain ⟨k0, v0⟩ := e
    rw [setR]
    split
    · rename_i heq
      subst heq
      simp [getRes, h]
    · simp only [getRes]
      split
      · rfl
      · exact ih

theorem mapR_apiGateway_none (name : String) (sr : Results)
    (h : name ≠ "Creating API Gateway") :
    (mapResultsToResources name sr).apiGateway = none := by
  rw [mapResultsToResources]
  split_ifs <;> simp_all

theorem mapR_apiKey_none (name : String) (sr : Results)
    (h : name ≠ "Generating API keys") :
    (mapResultsToResources name sr).apiKey = none := by
  rw [mapResultsToResources]
  split_ifs <;> simp_all

/-- Shape of the store after `updateStep` on a fresh matching record: the
step name is appended to `completedSteps`, the record is re-stamped with
the current time and version, and each resource kind is the patch when
present, the prior snippet otherwise (with the `apiKey.keyId` masked by
sanitization, its `value` untouched). -/
theorem updateStep_shape (st : Store) (s : SavedInstallationState) (pid : String) (now : Int)
    (name : String) (patch : ResourcesRec)
    (hstore : st.stored = some s) (hpid : s.projectId = pid)
    (hfresh : now - s.lastUpdated ≤ 86400000) :
    ∃ s', updateStep st pid now name patch = { stored := some s' } ∧
      s'.projectId = pid ∧ s'.lastUpdated = now ∧ s'.version = some CURRENT_VERSION ∧
      s'.completedSteps = (if name ∈ s.completedSteps then s.completedSteps
        else s.completedSteps ++ [name]) ∧
      s'.resources.apiGateway = orO patch.apiGateway s.resources.apiGateway ∧
      s'.resources.apiKey.map (·.value) = (orO patch.apiKey s.resources.apiKey).map (·.value) := by
  have hload : stateLoad st pid now = some s := stateLoad_eq_some st s pid now hstore hpid hfresh
  refine ⟨_, by rw [updateStep]; rw [hload]; rfl, ?_, ?_, ?_, ?_, ?_, ?_⟩
  · simp only [Option.getD_some, sanitizeRecord]
    split <;> exact hpid
  · simp [sanitizeRecord, stateSave]
  · simp [sanitizeRecord, stateSave]
  · simp only [Option.getD_some, stateSave, sanitizeRecord]
    split <;> rename_i hmem <;> simp [hmem]
  · simp only [Option.getD_some, stateSave, sanitizeRecord, mergeResources]
    split <;> rfl
  · simp only [Option.getD_some, stateSave, sanitizeRecord, mergeResources]
    split <;> (cases orO patch.apiKey s.resources.apiKey <;> rfl)

/-- One executed step of the loop. -/
theorem installGo_exec_step (pid : String) (now : Int)
    (actions : String → Except String Results) (name : String) (weight : Nat)
    (rest : List (String × Nat)) (st : InstallSt) (s : SavedInstallationState)
    (hstore : st.store.stored = some s) (hpid : s.projectId = pid)
    (hfresh : now - s.lastUpdated ≤ 86400000)
    (hnot : name ∉ s.completedSteps)
    (res : Results) (hact : actions name = .ok res) :
    installGo pid now actions ((name, weight) :: rest) st =
      installGo pid now actions rest
        { store := updateStep st.store pid now name (mapResultsToResources name res)
          results := rassign st.results res
          progress := st.progress + weight
          skipped := st.skipped
          invoked := st.invoked ++ [name] } := by
  have hnc : hasCompletedStep st.store pid now name = false := by
    rw [hasCompletedStep, stateLoad_eq_some st.store s pid now hstore hpid hfresh]
    simp [hnot]
  rw [installGo]
  rw [hnc]
  simp only [Bool.false_eq_true, if_false, hact]

/-- One skipped step of the loop. -/
theorem installGo_skip_step (pid : String) (now : Int)
    (actions : String → Except String Results) (name : String) (weight : Nat)
    (rest : List (String × Nat)) (st : InstallSt) (s : SavedInstallationState)
    (hstore : st.store.stored = some s) (hpid : s.projectId = pid)
    (hfresh : now - s.lastUpdated ≤ 86400000)
    (hdone : name ∈ s.completedSteps) (hver : s.version = some CURRENT_VERSION) :
    installGo pid now actions ((name, weight) :: rest) st =
      installGo pid now actions rest
        { store := st.store
          results := foldSaved name s.resources st.results
          progress := st.progress + weight
          skipped := st.skipped ++ [name]
          invoked := st.invoked } := by
  have hload : stateLoad st.store pid now = some s :=
    stateLoad_eq_some st.store s pid now hstore hpid hfresh
  have hc : hasCompletedStep st.store pid now name = true := by
    rw [hasCompletedStep]
    simp only [hload]
    rw [if_neg (by simp [hdone])]
    split
    · simp [hver]
    · rfl
  rw [installGo]
  rw [hc]
  simp only [if_true, getResources, hload, Option.map_some']

set_option maxHeartbeats 1600000 in
/-- C1: resuming over a State Store record that marks the final two steps
(`Creating API Gateway`, `Generating API keys`) complete - with matching
project, fresh timestamp and current schema version - executes the actions
of exactly the seven not-yet-completed steps in order, skips the two
completed steps without invoking their actions (whatever the actions would
return), and folds the stored gateway URL and API key snippets unchanged
into the final compiled result, which is flagged as a resumed
installation. -/
theorem resume_correctness (env : InstallEnv) (now : Int)
    (actions : String → Except String Results) (act : String → Results)
    (hact : ∀ n, actions n = .ok (act n))
    (s0 : SavedInstallationState) (gw : ApiGatewayRes) (ak : ApiKeyRes) (u : String)
    (hpid : s0.projectId = env.projectId)
    (hfresh : now - s0.lastUpdated ≤ 86400000)
    (hver : s0.version = some CURRENT_VERSION)
    (hcs : s0.completedSteps = ["Creating API Gateway", "Generating API keys"])
    (hga : s0.resources.apiGateway = some gw)
    (hurl : gw.url = some u) (hu : u ≠ "")
    (hak : s0.resources.apiKey = some ak) (hav : ak.value ≠ "")
    (hir : s0.installResult = none) :
    (install env now actions ⟨some s0⟩).invoked =
      ["Checking prerequisites", "Validating project", "Enabling APIs",
       "Creating service accounts", "Setting up Firebase", "Deploying Cloud Functions",
       "Configuring Workload Identity"] ∧
    (install env now actions ⟨some s0⟩).skipped =
      ["Creating API Gateway", "Generating API keys"] ∧
    ∃ res, (install env now actions ⟨some s0⟩).result = .ok res ∧
      res.apiGatewayUrl = u ∧ res.apiKey = ak.value ∧
      res.resumedInstallation = true ∧
      res.skippedSteps = ["Creating API Gateway", "Generating API keys"] := by
  have hload0 : stateLoad ⟨some s0⟩ env.projectId now = some s0 :=
    stateLoad_eq_some _ s0 _ now rfl hpid hfresh
  have hakv0 : s0.resources.apiKey.map (·.value) = some ak.value := by rw [hak]; rfl
  simp only [install, hload0, hir, Option.isSome_some, installSteps]
  -- step 1: Checking prerequisites (executed)
  rw [installGo_exec_step env.projectId now actions _ _ _ _ s0 rfl hpid hfresh
    (by rw [hcs]; decide) _ (hact _)]
  obtain ⟨s1, hst1, hpid1, hlu1, hver1, hcs1, hga1, hakv1⟩ :=
    updateStep_shape ⟨some s0⟩ s0 env.projectId now "Checking prerequisites"
      (mapResultsToResources "Checking prerequisites" (act "Checking prerequisites"))
      rfl hpid hfresh
  rw [hst1]
  rw [hcs, if_neg (by decide)] at hcs1
  simp only [List.cons_append, List.nil_append] at hcs1
  rw [mapR_apiGateway_none _ _ (by decide), orO_none, hga] at hga1
  rw [mapR_apiKey_none _ _ (by decide), orO_none, hakv0] at hakv1
  have hfr1 : now - s1.lastUpdated ≤ 86400000 := by omega
  -- step 2: Validating project (executed)
  rw [installGo_exec_step env.projectId now actions _ _ _ _ s1 rfl hpid1 hfr1
    (by rw [hcs1]; decide) _ (hact _)]
  obtain ⟨s2, hst2, hpid2, hlu2, hver2, hcs2, hga2, hakv2⟩ :=
    updateStep_shape ⟨some s1⟩ s1 env.projectId now "Validating project"
      (mapResultsToResources "Validating project" (act "Validating project"))
      rfl hpid1 hfr1
  rw [hst2]
  rw [hcs1, if_neg (by decide)] at hcs2
  simp only [List.cons_append, List.nil_append] at hcs2
  rw [mapR_apiGateway_none _ _ (by decide), orO_none, hga1] at hga2
  rw [mapR_apiKey_none _ _ (by decide), orO_none, hakv1] at hakv2
  have hfr2 : now - s2.lastUpdated ≤ 86400000 := by omega
  -- step 3: Enabling APIs (executed)
  rw [installGo_exec_step env.projectId now actions _ _ _ _ s2 rfl hpid2 hfr2
    (by rw [hcs2]; decide) _ (hact _)]
  obtain ⟨s3, hst3, hpid3, hlu3, hver3, hcs3, hga3, hakv3⟩ :=
    updateStep_shape ⟨some s2⟩ s2 env.projectId now "Enabling APIs"
      (mapResultsToResources "Enabling APIs" (act "Enabling APIs"))
      rfl hpid2 hfr2
  rw [hst3]
  rw [hcs2, if_neg (by decide)] at hcs3
  simp only [List.cons_append, List.nil_append] at hcs3
  rw [mapR_apiGateway_none _ _ (by decide), orO_none, hga2] at hga3
  rw [mapR_apiKey_none _ _ (by decide), orO_none, hakv2] at hakv3
  have hfr3 : now - s3.lastUpdated ≤ 86400000 := by omega
  -- step 4: Creating service accounts (executed)
  rw [installGo_exec_step env.projectId now actions _ _ _ _ s3 rfl hpid3 hfr3
    (by rw [hcs3]; decide) _ (hact _)]
  obtain ⟨s4, hst4, hpid4, hlu4, hver4, hcs4, hga4, hakv4⟩ :=
    updateStep_shape ⟨some s3⟩ s3 env.projectId now "Creating service accounts"
      (mapResultsToResources "Creating service accounts" (act "Creating service accounts"))
      rfl hpid3 hfr3
  rw [hst4]
  rw [hcs3, if_neg (by decide)] at hcs4
  simp only [List.cons_append, List.nil_append] at hcs4
  rw [mapR_apiGateway_none _ _ (by decide), orO_none, hga3] at hga4
  rw [mapR_apiKey_none _ _ (by decide), orO_none, hakv3] at hakv4
  have hfr4 : now - s4.lastUpdated ≤ 86400000 := by omega
  -- step 5: Setting up Firebase (executed)
  rw [installGo_exec_step env.projectId now actions _ _ _ _ s4 rfl hpid4 hfr4
    (by rw [hcs4]; decide) _ (hact _)]
  obtain ⟨s5, hst5, hpid5, hlu5, hver5, hcs5, hga5, hakv5⟩ :=
    updateStep_shape ⟨some s4⟩ s4 env.projectId now "Setting up Firebase"
      (mapResultsToResources "Setting up Firebase" (act "Setting up Firebase"))
      rfl hpid4 hfr4
  rw [hst5]
  rw [hcs4, if_neg (by decide)] at hcs5
  simp only [List.cons_append, List.nil_append] at hcs5
  rw [mapR_apiGateway_none _ _ (by decide), orO_none, hga4] at hga5
  rw [mapR_apiKey_none _ _ (by decide), orO_none, hakv4] at hakv5
  have hfr5 : now - s5.lastUpdated ≤ 86400000 := by omega
  -- step 6: Deploying Cloud Functions (executed)
  rw [installGo_exec_step env.projectId now actions _ _ _ _ s5 rfl hpid5 hfr5
    (by rw [hcs5]; decide) _ (hact _)]
  obtain ⟨s6, hst6, hpid6, hlu6, hver6, hcs6, hga6, hakv6⟩ :=
    updateStep_shape ⟨some s5⟩ s5 env.projectId now "Deploying Cloud Functions"
      (mapResultsToResources "Deploying Cloud Functions" (act "Deploying Cloud Functions"))
      rfl hpid5 hfr5
  rw [hst6]
  rw [hcs5, if_neg (by decide)] at hcs6
  simp only [List.cons_append, List.nil_append] at hcs6
  rw [mapR_apiGateway_none _ _ (by decide), orO_none, hga5] at hga6
  rw [mapR_apiKey_none _ _ (by decide), orO_none, hakv5] at hakv6
  have hfr6 : now - s6.lastUpdated ≤ 86400000 := by omega
  -- step 7: Configuring Workload Identity (executed)
  rw [installGo_exec_step env.projectId now actions _ _ _ _ s6 rfl hpid6 hfr6
    (by rw [hcs6]; decide) _ (hact _)]
  obtain ⟨s7, hst7, hpid7, hlu7, hver7, hcs7, hga7, hakv7⟩ :=
    updateStep_shape ⟨some s6⟩ s6 env.projectId now "Configuring Workload Identity"
      (mapResultsToResources "Configuring Workload Identity"
        (act "Configuring Workload Identity"))
      rfl hpid6 hfr6
  rw [hst7]
  rw [hcs6, if_neg (by decide)] at hcs7
  simp only [List.cons_append, List.nil_append] at hcs7
  rw [mapR_apiGateway_none _ _ (by decide), orO_none, hga6] at hga7
  rw [mapR_apiKey_none _ _ (by decide), orO_none, hakv6] at hakv7
  have hfr7 : now - s7.lastUpdated ≤ 86400000 := by omega
  -- step 8: Creating API Gateway (skipped)
  rw [installGo_skip_step env.projectId now actions _ _ _ _ s7 rfl hpid7 hfr7
    (by rw [hcs7]; decide) hver7]
  -- step 9: Generating API keys (skipped)
  rw [installGo_skip_step env.projectId now actions _ _ _ _ s7 rfl hpid7 hfr7
    (by rw [hcs7]; decide) hver7]
  obtain ⟨ak7, hak7, hak7v⟩ : ∃ a, s7.resources.apiKey = some a ∧ a.value = ak.value := by
    cases h7 : s7.resources.apiKey with
    | none => rw [h7] at hakv7; simp at hakv7
    | some a =>
      rw [h7] at hakv7
      exact ⟨a, rfl, by simpa using hakv7⟩
  have hfold8 : ∀ (r : Results), foldSaved "Creating API Gateway" s7.resources r =
      setR r "apiGatewayUrl" (.s u) := by
    intro r
    simp only [foldSaved,
      show ("Creating API Gateway" : String) ≠ "Creating service accounts" from by decide,
      show ("Creating API Gateway" : String) ≠ "Setting up Firebase" from by decide,
      show ("Creating API Gateway" : String) ≠ "Generating API keys" from by decide,
      hga7, hurl, hu, ite_true, ite_false, if_true, if_false, ne_eq,
      not_false_eq_true]
  have hak7ne : ak7.value ≠ "" := by rw [hak7v]; exact hav
  have hfold9 : ∀ (r : Results), foldSaved "Generating API keys" s7.resources r =
      setR r "apiKey" (.s ak.value) := by
    intro r
    simp only [foldSaved,
      show ("Generating API keys" : String) ≠ "Creating service accounts" from by decide,
      show ("Generating API keys" : String) ≠ "Setting up Firebase" from by decide,
      show ("Generating API keys" : String) ≠ "Creating API Gateway" from by decide,
      hak7, ite_true, ite_false, if_true, if_false, ne_eq, not_false_eq_true]
    simp [hak7v, hav]
  rw [hfold8, hfold9]
  rw [installGo]
  have hloadF : stateLoad ⟨some s7⟩ env.projectId now = some s7 :=
    stateLoad_eq_some _ s7 _ now rfl hpid7 hfr7
  have hgwu : ∀ (r : Results),
      getRes (setR (setR r "apiGatewayUrl" (.s u)) "apiKey" (.s ak.value)) "apiGatewayUrl" =
      some (.s u) := by
    intro r
    rw [getRes_setR_ne _ _ _ _ (by decide), getRes_setR_same]
  have hkeyv : ∀ (r : Results),
      getRes (setR (setR r "apiGatewayUrl" (.s u)) "apiKey" (.s ak.value)) "apiKey" =
      some (.s ak.value) := by
    intro r
    rw [getRes_setR_same]
  refine ⟨by simp, by simp, ?_⟩
  refine ⟨_, rfl, ?_, ?_, ?_, ?_⟩
  · simp only [compileResults, jsStrOr, hgwu, truthy, rvalToStr]
    simp [hu]
  · simp only [compileResults, strOrEmptyR, hkeyv, truthy, rvalToStr]
    simp [hav]
  · simp
  · simp

/-- Witness for `resume_correctness` at a concrete resumed installation. -/
theorem resume_correctness_witness :
    (let s0 : SavedInstallationState :=
      { projectId := "demo-1", projectName := "Demo", startedAt := 0, lastUpdated := 0,
        version := some "v2.1.2-SECURITY",
        completedSteps := ["Creating API Gateway", "Generating API keys"],
        resources :=
          { apiGateway := some ⟨"api", "cfg", "gwid", true, some "https://gw.example"⟩,
            apiKey := some ⟨"kid", "KEY123", true⟩ },
        installResult := none };
    let env : InstallEnv :=
      { projectId := "demo-1", projectName := some "Demo", region := "us-central1",
        solutionPref := "anava" };
    let out := install env 0 (fun _ => .ok []) ⟨some s0⟩;
    out.invoked =
      ["Checking prerequisites", "Validating project", "Enabling APIs",
       "Creating service accounts", "Setting up Firebase", "Deploying Cloud Functions",
       "Configuring Workload Identity"] ∧
    out.skipped = ["Creating API Gateway", "Generating API keys"] ∧
    ∃ res, out.result = .ok res ∧ res.apiGatewayUrl = "https://gw.example" ∧
      res.apiKey = "KEY123" ∧ res.resumedInstallation = true ∧
      res.skippedSteps = ["Creating API Gateway", "Generating API keys"]) := by
  exact resume_correctness
    { projectId := "demo-1", projectName := some "Demo", region := "us-central1",
      solutionPref := "anava" }
    0 (fun _ => .ok []) (fun _ => []) (fun _ => rfl)
    { projectId := "demo-1", projectName := "Demo", startedAt := 0, lastUpdated := 0,
      version := some "v2.1.2-SECURITY",
      completedSteps := ["Creating API Gateway", "Generating API keys"],
      resources :=
        { apiGateway := some ⟨"api", "cfg", "gwid", true, some "https://gw.example"⟩,
          apiKey := some ⟨"kid", "KEY123", true⟩ },
      installResult := none }
    ⟨"api", "cfg", "gwid", true, some "https://gw.example"⟩ ⟨"kid", "KEY123", true⟩
    "https://gw.example"
    rfl (by norm_num) rfl rfl rfl rfl (by decide) rfl (by decide) rfl

/-! ## C9: storage sanitization -/

theorem leadMatch_mem {α : Type} [DecidableEq α] :
    ∀ (n h : List α), leadMatch n h = true → ∀ c ∈ n, c ∈ h
  | [], _, _, c, hc => absurd hc (by simp)
  | _ :: _, [], h, _, _ => by simp [leadMatch] at h
  | a :: as, b :: bs, h, c, hc => by
    simp only [leadMatch, Bool.and_eq_true, decide_eq_true_eq] at h
    rcases List.mem_cons.mp hc with rfl | hc
    · simp [h.1]
    · exact List.mem_cons_of_mem b (leadMatch_mem as bs h.2 c hc)

theorem hasSub_mem {α : Type} [DecidableEq α] :
    ∀ (hay needle : List α), hasSub hay needle = true → ∀ c ∈ needle, c ∈ hay
  | [], needle, h, c, hc => by
    rw [hasSub, List.isEmpty_iff] at h
    subst h
    exact absurd hc (by simp)
  | x :: t, needle, h, c, hc => by
    rw [hasSub, Bool.or_eq_true] at h
    rcases h with h | h
    · exact leadMatch_mem needle (x :: t) h c hc
    · exact List.mem_cons_of_mem x (hasSub_mem t needle h c hc)

theorem hasSub_false_of_absent {α : Type} [DecidableEq α] (hay needle : List α) (c : α)
    (hc : c ∈ needle) (habs : c ∉ hay) : hasSub hay needle = false := by
  cases h : hasSub hay needle
  · rfl
  · exact absurd (hasSub_mem hay needle h c hc) habs

theorem lowerCode_ne_75 (u : Nat) : lowerCode u ≠ 75 := by
  rw [lowerCode]
  split <;> omega

theorem lowerCode_of_digit (u : Nat) (h : u ≤ 57) : lowerCode u = u := by
  rw [lowerCode, if_neg (by omega)]

theorem natToDecCodes_le_57 (i : Nat) : ∀ u ∈ natToDecCodes i, u ≤ 57 := by
  intro u hu
  rcases List.mem_map.mp hu with ⟨d, hd, rfl⟩
  have := natDigits_lt10 i d hd
  omega

/-- Decimal index keys are never sensitive (for either sensitivity list). -/
theorem index_keys_not_sensitive (i : Nat) :
    isSensitiveKey (natToDecCodes i) = false ∧ claimSensitive (natToDecCodes i) = false := by
  have hmap : (natToDecCodes i).map lowerCode = natToDecCodes i := by
    conv_rhs => rw [← List.map_id (natToDecCodes i)]
    exact List.map_congr_left fun u hu => lowerCode_of_digit u (natToDecCodes_le_57 i u hu)
  have hfalse : ∀ (needle : List Nat) (c : Nat), c ∈ needle → 57 < c →
      hasSub ((natToDecCodes i).map lowerCode) needle = false := by
    intro needle c hc hbig
    refine hasSub_false_of_absent _ _ c hc ?_
    rw [hmap]
    intro hmem
    exact absurd (natToDecCodes_le_57 i c hmem) (by omega)
  constructor
  · simp only [isSensitiveKey, sensitiveFields, List.any_cons, List.any_nil]
    rw [hfalse (codesOf "token") 116 (by decide) (by omega),
      hfalse (codesOf "password") 112 (by decide) (by omega),
      hfalse (codesOf "secret") 115 (by decide) (by omega),
      hfalse (codesOf "key") 107 (by decide) (by omega),
      hfalse (codesOf "apiKey") 97 (by decide) (by omega)]
    rfl
  · simp only [claimSensitive, List.any_cons, List.any_nil]
    rw [hfalse (codesOf "token") 116 (by decide) (by omega),
      hfalse (codesOf "password") 112 (by decide) (by omega),
      hfalse (codesOf "secret") 115 (by decide) (by omega),
      hfalse (codesOf "key") 107 (by decide) (by omega)]
    rfl

/-- The fifth, mixed-case `apiKey` entry of the source list can never match
a lowercased key, so the source sensitivity test and the specification
wording agree. -/
theorem sensitive_eq (k : List Nat) : isSensitiveKey k = claimSensitive k := by
  have h75 : hasSub (k.map lowerCode) (codesOf "apiKey") = false := by
    refine hasSub_false_of_absent _ _ 75 (by decide) ?_
    intro hmem
    rcases List.mem_map.mp hmem with ⟨u, _, hu⟩
    exact lowerCode_ne_75 u hu
  simp only [isSensitiveKey, claimSensitive, sensitiveFields, List.any_cons, List.any_nil,
    h75, Bool.or_false]

mutual

theorem sanitizeObject_eq_claim : (v : JVal) → sanitizeObject v = claimSanitize v
  | .null => by simp [sanitizeObject, claimSanitize]
  | .bool _ => by simp [sanitizeObject, claimSanitize]
  | .num _ => by simp [sanitizeObject, claimSanitize]
  | .str _ => by simp [sanitizeObject, claimSanitize]
  | .obj es => by
    simp only [sanitizeObject, claimSanitize]
    exact congrArg JVal.obj (sanitizeEntries_eq_claim es)
  | .arr l => by
    simp only [sanitizeObject, claimSanitize]
    exact congrArg JVal.arr (sanitizeArrEls_eq_claim 0 l)
termination_by v => (sizeOf v, 0)

theorem sanitizeEntries_eq_claim :
    (es : List (List Nat × JVal)) → sanitizeEntries es = claimSanitizeEntries es
  | [] => by simp [sanitizeEntries, claimSanitizeEntries]
  | (k, v) :: rest => by
    simp only [sanitizeEntries]
    cases v with
    | str s =>
      simp only [claimSanitizeEntries, sanitizeEntryVal, sensitive_eq k]
      rw [sanitizeEntries_eq_claim rest]
      cases hs : claimSensitive k <;> simp
    | null =>
      simp only [claimSanitizeEntries, sanitizeEntryVal, claimSanitize]
      rw [sanitizeEntries_eq_claim rest]
      cases hs : isSensitiveKey k <;> simp
    | bool b =>
      simp only [claimSanitizeEntries, sanitizeEntryVal, claimSanitize]
      rw [sanitizeEntries_eq_claim rest]
      cases hs : isSensitiveKey k <;> simp
    | num n =>
      simp only [claimSanitizeEntries, sanitizeEntryVal, claimSanitize]
      rw [sanitizeEntries_eq_claim rest]
      cases hs : isSensitiveKey k <;> simp
    | obj es' =>
      simp only [claimSanitizeEntries, sanitizeEntryVal]
      rw [sanitizeEntries_eq_claim rest, sanitizeObject_eq_claim (.obj es')]
      cases hs : isSensitiveKey k <;> simp
    | arr l =>
      simp only [claimSanitizeEntries, sanitizeEntryVal]
      rw [sanitizeEntries_eq_claim rest, sanitizeObject_eq_claim (.arr l)]
      cases hs : isSensitiveKey k <;> simp
termination_by es => (sizeOf es, 1)

theorem sanitizeArrEls_eq_claim :
    (i : Nat) → (l : List JVal) → sanitizeArrEls i l = claimSanitizeList l
  | _, [] => by simp [sanitizeArrEls, claimSanitizeList]
  | i, v :: rest => by
    simp only [sanitizeArrEls, claimSanitizeList]
    have hins := (index_keys_not_sensitive i).1
    rw [sanitizeArrEls_eq_claim (i + 1) rest]
    cases v with
    | str s => simp [sanitizeEntryVal, hins, claimSanitize]
    | null => simp [sanitizeEntryVal, hins, claimSanitize]
    | bool b => simp [sanitizeEntryVal, hins, claimSanitize]
    | num n => simp [sanitizeEntryVal, hins, claimSanitize]
    | obj es' => simp [sanitizeEntryVal, hins, sanitizeObject_eq_claim (.obj es')]
    | arr l' => simp [sanitizeEntryVal, hins, sanitizeObject_eq_claim (.arr l')]
termination_by _ l => (sizeOf l, 1)

end

mutual

theorem maskedB_sanitizeObject : (v : JVal) → maskedB (sanitizeObject v) = true
  | .null => by simp [sanitizeObject, maskedB]
  | .bool _ => by simp [sanitizeObject, maskedB]
  | .num _ => by simp [sanitizeObject, maskedB]
  | .str _ => by simp [sanitizeObject, maskedB]
  | .obj es => by
    simp only [sanitizeObject, maskedB]
    exact maskedEntries_sanitize es
  | .arr l => by
    simp only [sanitizeObject, maskedB]
    exact maskedList_sanitize 0 l
termination_by v => (sizeOf v, 0)

theorem maskedEntries_sanitize :
    (es : List (List Nat × JVal)) → maskedEntries (sanitizeEntries es) = true
  | [] => by simp [sanitizeEntries, maskedEntries]
  | (k, v) :: rest => by
    simp only [sanitizeEntries, maskedEntries, Bool.and_eq_true]
    refine ⟨⟨?_, ?_⟩, maskedEntries_sanitize rest⟩
    · cases hs : claimSensitive k
      · simp
      · have hs' : isSensitiveKey k = true := by rw [sensitive_eq k, hs]
        cases v with
        | str s =>
          simp only [sanitizeEntryVal, hs', if_true]
          rw [maskJStr]
          split
          · simp
          · simp [PROTECTED]
        | null => simp [sanitizeEntryVal, hs']
        | bool b => simp [sanitizeEntryVal, hs']
        | num n => simp [sanitizeEntryVal, hs']
        | obj es' => simp [sanitizeEntryVal, hs', sanitizeObject]
        | arr l => simp [sanitizeEntryVal, hs', sanitizeObject]
    · cases v with
      | str s =>
        cases hs : isSensitiveKey k <;> simp [sanitizeEntryVal, hs, maskedB]
      | null => cases hs : isSensitiveKey k <;> simp [sanitizeEntryVal, hs, maskedB]
      | bool b => cases hs : isSensitiveKey k <;> simp [sanitizeEntryVal, hs, maskedB]
      | num n => cases hs : isSensitiveKey k <;> simp [sanitizeEntryVal, hs, maskedB]
      | obj es' =>
        cases hs : isSensitiveKey k <;>
          simp [sanitizeEntryVal, hs, maskedB_sanitizeObject (.obj es')]
      | arr l =>
        cases hs : isSensitiveKey k <;>
          simp [sanitizeEntryVal, hs, maskedB_sanitizeObject (.arr l)]
termination_by es => (sizeOf es, 1)

theorem maskedList_sanitize :
    (i : Nat) → (l : List JVal) → maskedList (sanitizeArrEls i l) = true
  | _, [] => by simp [sanitizeArrEls, maskedList]
  | i, v :: rest => by
    simp only [sanitizeArrEls, maskedList, Bool.and_eq_true]
    have hins := (index_keys_not_sensitive i).1
    refine ⟨?_, maskedList_sanitize (i + 1) rest⟩
    cases v with
    | str s => simp [sanitizeEntryVal, hins, maskedB]
    | null => simp [sanitizeEntryVal, hins, maskedB]
    | bool b => simp [sanitizeEntryVal, hins, maskedB]
    | num n => simp [sanitizeEntryVal, hins, maskedB]
    | obj es' => simp [sanitizeEntryVal, hins, maskedB_sanitizeObject (.obj es')]
    | arr l' => simp [sanitizeEntryVal, hins, maskedB_sanitizeObject (.arr l')]
termination_by _ l => (sizeOf l, 1)

end

/-- C9: `sanitizeForStorage` on any object realizes exactly the claimed
transformation (string fields under keys whose lowercased form contains
`token`, `password`, `secret` or `key` become `[PROTECTED]`, empty strings
stay empty, recursion passes through nested objects and arrays, all other
fields are kept), and consequently the record persisted by `save` -
timestamp and version stamped, then sanitized - never carries a string
other than `[PROTECTED]` or the empty string under a sensitive key. -/
theorem storage_sanitization (es : List (List Nat × JVal)) (nowIso ver : List Nat) :
    sanitizeForStorage (.obj es) = claimSanitize (.obj es) ∧
    maskedB (saveStoredJson es nowIso ver) = true := by
  refine ⟨sanitizeObject_eq_claim (.obj es), ?_⟩
  rw [saveStoredJson]
  exact maskedB_sanitizeObject (.obj _)

/-! ## C10: encryption and storage round-trip -/

theorem xor_cancel (u k : Nat) : (u ^^^ k) ^^^ k = u := by
  rw [Nat.xor_assoc, Nat.xor_self, Nat.xor_zero]

theorem xorKeyGo_involution (l : List Nat) : ∀ i, xorKeyGo i (xorKeyGo i l) = l := by
  induction l with
  | nil => intro i; rfl
  | cons u rest ih =>
    intro i
    simp only [xorKeyGo, xor_cancel]
    rw [ih (i + 1)]

theorem xorKey_involution (l : List Nat) : xorKey (xorKey l) = l :=
  xorKeyGo_involution l 0

theorem keyCodes_getD_lt (i : Nat) : keyCodes.getD (i % keyCodes.length) 0 < 128 := by
  have hall : ∀ m, m < 20 → keyCodes.getD m 0 < 128 := by decide
  have hlen : keyCodes.length = 20 := by decide
  rw [hlen]
  exact hall _ (Nat.mod_lt _ (by omega))

theorem div256_xor (u k : Nat) (hk : k < 256) : (u ^^^ k) / 256 = u / 256 := by
  have hdist : (u ^^^ k) >>> 8 = (u >>> 8) ^^^ (k >>> 8) := by
    apply Nat.eq_of_testBit_eq
    intro i
    simp [Nat.testBit_shiftRight, Nat.testBit_xor]
  have hk8 : k >>> 8 = 0 := by
    rw [Nat.shiftRight_eq_div_pow]
    norm_num
    omega
  rw [hk8, Nat.xor_zero] at hdist
  rw [Nat.shiftRight_eq_div_pow, Nat.shiftRight_eq_div_pow] at hdist
  norm_num at hdist
  exact hdist

theorem isHighSurr_div (u : Nat) : isHighSurr u = decide (216 ≤ u / 256 ∧ u / 256 ≤ 219) := by
  rw [isHighSurr]
  exact decide_eq_decide.mpr (by omega)

theorem isLowSurr_div (u : Nat) : isLowSurr u = decide (220 ≤ u / 256 ∧ u / 256 ≤ 223) := by
  rw [isLowSurr]
  exact decide_eq_decide.mpr (by omega)

theorem isHighSurr_xor (u k : Nat) (hk : k < 256) : isHighSurr (u ^^^ k) = isHighSurr u := by
  rw [isHighSurr_div, isHighSurr_div, div256_xor u k hk]

theorem isLowSurr_xor (u k : Nat) (hk : k < 256) : isLowSurr (u ^^^ k) = isLowSurr u := by
  rw [isLowSurr_div, isLowSurr_div, div256_xor u k hk]

theorem xor_lt_65536 (u k : Nat) (hu : u < 65536) (hk : k < 128) : u ^^^ k < 65536 := by
  have h16 : (65536 : Nat) = 2 ^ 16 := by norm_num
  rw [h16] at hu ⊢
  exact Nat.xor_lt_two_pow hu (by omega)

/-- Surrogate pairing survives decoding: the units of the parsed code
points are the original units. -/
theorem utf16_roundtrip : ∀ (l cps : List Nat), utf16ToCodepoints l = some cps →
    (∀ u ∈ l, u < 65536) → codepointsToUtf16 cps = l
  | [], cps, h, _ => by
    simp only [utf16ToCodepoints, Option.some.injEq] at h
    subst h
    rfl
  | [u], cps, h, hb => by
    rw [utf16ToCodepoints] at h
    by_cases hh : isHighSurr u
    · rw [if_pos hh] at h
      exact absurd h (by simp)
    · rw [if_neg hh] at h
      by_cases hl : isLowSurr u
      · rw [if_pos hl] at h
        exact absurd h (by simp)
      · rw [if_neg hl, Option.some.injEq] at h
        subst h
        simp only [codepointsToUtf16]
        rw [codepointToUtf16, if_pos (hb u (by simp))]
        simp
  | u :: l :: rest, cps, h, hb => by
    rw [utf16ToCodepoints] at h
    by_cases hh : isHighSurr u
    · rw [if_pos hh] at h
      by_cases hl : isLowSurr l
      · rw [if_pos hl] at h
        rcases Option.map_eq_some'.mp h with ⟨cs, hcs, hcps⟩
        subst hcps
        have hrec : codepointsToUtf16 cs = rest :=
          utf16_roundtrip rest cs hcs fun x hx => hb x (by simp [hx])
        simp only [codepointsToUtf16, hrec]
        have hhu : 55296 ≤ u ∧ u ≤ 56319 := by simpa [isHighSurr] using hh
        have hlu : 56320 ≤ l ∧ l ≤ 57343 := by simpa [isLowSurr] using hl
        rw [codepointToUtf16, if_neg (by omega)]
        have h1 : 65536 + (u - 55296) * 1024 + (l - 56320) - 65536 =
            (u - 55296) * 1024 + (l - 56320) := by omega
        rw [h1]
        have h2 : ((u - 55296) * 1024 + (l - 56320)) / 1024 = u - 55296 := by omega
        have h3 : ((u - 55296) * 1024 + (l - 56320)) % 1024 = l - 56320 := by omega
        rw [h2, h3]
        simp only [List.cons_append, List.nil_append, List.cons.injEq]
        exact ⟨by omega, by omega, by simp⟩
      · rw [if_neg hl] at h
        exact absurd h (by simp)
    · rw [if_neg hh] at h
      by_cases hl : isLowSurr u
      · rw [if_pos hl] at h
        exact absurd h (by simp)
      · rw [if_neg hl] at h
        rcases Option.map_eq_some'.mp h with ⟨cs, hcs, hcps⟩
        subst hcps
        have hrec : codepointsToUtf16 cs = l :: rest :=
          utf16_roundtrip (l :: rest) cs hcs fun x hx => hb x (by simp [hx])
        simp only [codepointsToUtf16, hrec]
        rw [codepointToUtf16, if_pos (hb u (by simp))]
        simp
termination_by l => l.length
decreasing_by all_goals first | (simp; omega) | simp | omega

/-- The parsed code points are Unicode scalar values. -/
theorem utf16_cp_lt : ∀ (l cps : List Nat), utf16ToCodepoints l = some cps →
    (∀ u ∈ l, u < 65536) → ∀ cp ∈ cps, cp < 1114112
  | [], cps, h, _ => by
    simp only [utf16ToCodepoints, Option.some.injEq] at h
    subst h
    simp
  | [u], cps, h, hb => by
    rw [utf16ToCodepoints] at h
    by_cases hh : isHighSurr u
    · rw [if_pos hh] at h
      exact absurd h (by simp)
    · rw [if_neg hh] at h
      by_cases hl : isLowSurr u
      · rw [if_pos hl] at h
        exact absurd h (by simp)
      · rw [if_neg hl, Option.some.injEq] at h
        subst h
        intro cp hcp
        rw [List.mem_singleton] at hcp
        subst hcp
        exact lt_trans (hb cp (by simp)) (by norm_num)
  | u :: l :: rest, cps, h, hb => by
    rw [utf16ToCodepoints] at h
    by_cases hh : isHighSurr u
    · rw [if_pos hh] at h
      by_cases hl : isLowSurr l
      · rw [if_pos hl] at h
        rcases Option.map_eq_some'.mp h with ⟨cs, hcs, hcps⟩
        subst hcps
        intro cp hcp
        rcases List.mem_cons.mp hcp with heq | hcp
        · have hhu : 55296 ≤ u ∧ u ≤ 56319 := by simpa [isHighSurr] using hh
          have hlu : 56320 ≤ l ∧ l ≤ 57343 := by simpa [isLowSurr] using hl
          omega
        · exact utf16_cp_lt rest cs hcs (fun x hx => hb x (by simp [hx])) cp hcp
      · rw [if_neg hl] at h
        exact absurd h (by simp)
    · rw [if_neg hh] at h
      by_cases hl : isLowSurr u
      · rw [if_pos hl] at h
        exact absurd h (by simp)
      · rw [if_neg hl] at h
        rcases Option.map_eq_some'.mp h with ⟨cs, hcs, hcps⟩
        subst hcps
        intro cp hcp
        rcases List.mem_cons.mp hcp with heq | hcp
        · have := hb u (by simp)
          omega
        · exact utf16_cp_lt (l :: rest) cs hcs (fun x hx => hb x (by simp [hx])) cp hcp
termination_by l => l.length
decreasing_by all_goals first | (simp; omega) | simp | omega

/-- UTF-8 encoding of scalar values decodes to the same values. -/
theorem utf8_roundtrip : ∀ (cps : List Nat), (∀ cp ∈ cps, cp < 1114112) →
    utf8Decode (utf8Encode cps) = some cps := by
  intro cps
  induction cps with
  | nil =>
    intro _
    rw [utf8Encode, utf8Decode]
  | cons cp rest ih =>
    intro hb
    have hrec := ih fun x hx => hb x (by simp [hx])
    have hcp : cp < 1114112 := hb cp (by simp)
    rw [utf8Encode]
    by_cases h1 : cp < 128
    · rw [utf8EncodeChar, if_pos h1]
      simp only [List.cons_append, List.nil_append]
      rw [utf8Decode, if_pos h1, hrec]
      rfl
    · by_cases h2 : cp < 2048
      · rw [utf8EncodeChar, if_neg h1, if_pos h2]
        simp only [List.cons_append, List.nil_append]
        rw [utf8Decode, if_neg (by omega), if_neg (by omega), if_pos (by omega)]
        rw [utf8Cont1, if_pos (by omega), hrec]
        simp only [Option.map_some', Option.some.injEq, List.cons.injEq, and_true]
        omega
      · by_cases h3 : cp < 65536
        · rw [utf8EncodeChar, if_neg h1, if_neg h2, if_pos h3]
          simp only [List.cons_append, List.nil_append]
          rw [utf8Decode, if_neg (by omega), if_neg (by omega), if_neg (by omega),
            if_pos (by omega)]
          rw [utf8Cont2, if_pos (by omega), hrec]
          simp only [Option.map_some', Option.some.injEq, List.cons.injEq, and_true]
          omega
        · rw [utf8EncodeChar, if_neg h1, if_neg h2, if_neg h3]
          simp only [List.cons_append, List.nil_append]
          rw [utf8Decode, if_neg (by omega), if_neg (by omega), if_neg (by omega),
            if_neg (by omega), if_pos (by omega)]
          rw [utf8Cont3, if_pos (by omega), hrec]
          simp only [Option.map_some', Option.some.injEq, List.cons.injEq, and_true]
          omega

/-- UTF-8 bytes fit in one byte. -/
theorem utf8Encode_lt256 : ∀ (cps : List Nat), (∀ cp ∈ cps, cp < 1114112) →
    ∀ b ∈ utf8Encode cps, b < 256 := by
  intro cps
  induction cps with
  | nil => intro _ b hb; simp [utf8Encode] at hb
  | cons cp rest ih =>
    intro hall b hb
    rw [utf8Encode] at hb
    rcases List.mem_append.mp hb with h | h
    · have hcp : cp < 1114112 := hall cp (by simp)
      rw [utf8EncodeChar] at h
      split at h <;> try (split at h) <;> try (split at h)
      all_goals simp_all
      all_goals omega
    · exact ih (fun x hx => hall x (by simp [hx])) b h

theorem b64Val_b64Char (n : Nat) (h : n < 64) : b64Val (b64Char n) = some n := by
  have hall : ∀ m, m < 64 → b64Val (b64Char m) = some m := by decide
  exact hall n h

theorem b64Char_ne_61 (n : Nat) (h : n < 64) : b64Char n ≠ 61 := by
  have hall : ∀ m, m < 64 → b64Char m ≠ 61 := by decide
  exact hall n h

/-- Base64 of a byte sequence decodes to the same bytes. -/
theorem b64_roundtrip : ∀ (bs : List Nat), (∀ b ∈ bs, b < 256) →
    b64Decode (b64Encode bs) = some bs
  | [], _ => by rw [b64Encode, b64Decode]
  | [a], h => by
    have ha : a < 256 := h a (by simp)
    rw [b64Encode, b64Decode]
    rw [b64Val_b64Char _ (by omega), b64Val_b64Char _ (by omega)]
    simp only [Option.some_bind, Option.some.injEq, List.cons.injEq, and_true, and_self,
      ite_true, true_and]
    omega
  | [a, b], h => by
    have ha : a < 256 := h a (by simp)
    have hb : b < 256 := h b (by simp)
    rw [b64Encode, b64Decode]
    rw [b64Val_b64Char _ (by omega), b64Val_b64Char _ (by omega)]
    simp only [Option.some_bind]
    rw [if_neg (fun hc => b64Char_ne_61 _ (by omega) hc.1)]
    rw [b64Val_b64Char _ (by omega)]
    simp only [Option.some_bind, Option.some.injEq, List.cons.injEq, and_true, and_self,
      ite_true, true_and]
    omega
  | a :: b :: c :: d :: rest', h => by
    have ha : a < 256 := h a (by simp)
    have hb : b < 256 := h b (by simp)
    have hc : c < 256 := h c (by simp)
    have hrest : b64Decode (b64Encode (d :: rest')) = some (d :: rest') :=
      b64_roundtrip (d :: rest') fun x hx => h x (by simp [hx])
    rw [b64Encode, b64Decode]
    rw [b64Val_b64Char _ (by omega), b64Val_b64Char _ (by omega)]
    simp only [Option.some_bind]
    rw [if_neg (fun hx => b64Char_ne_61 _ (by omega) hx.1)]
    rw [b64Val_b64Char _ (by omega)]
    simp only [Option.some_bind]
    rw [if_neg (fun hx => b64Char_ne_61 _ (by omega) hx.1)]
    rw [b64Val_b64Char _ (by omega)]
    simp only [Option.some_bind]
    rw [hrest]
    simp only [Option.map_some', Option.some.injEq, List.cons.injEq, and_true, and_self,
      true_and]
    omega
  | [a, b, c], h => by
    have ha : a < 256 := h a (by simp)
    have hb : b < 256 := h b (by simp)
    have hc : c < 256 := h c (by simp)
    rw [b64Encode, show b64Encode [] = [] from by rw [b64Encode], b64Decode]
    rw [b64Val_b64Char _ (by omega), b64Val_b64Char _ (by omega)]
    simp only [Option.some_bind]
    rw [if_neg (fun hx => b64Char_ne_61 _ (by omega) hx.1)]
    rw [b64Val_b64Char _ (by omega)]
    simp only [Option.some_bind]
    rw [if_neg (fun hx => b64Char_ne_61 _ (by omega) hx.1)]
    rw [b64Val_b64Char _ (by omega)]
    simp only [Option.some_bind]
    rw [show b64Decode [] = some [] from by rw [b64Decode]]
    simp only [Option.map_some', Option.some.injEq, List.cons.injEq, and_true, and_self,
      true_and]
    omega

/-- XOR with the key keeps units inside the UTF-16 range. -/
theorem xorKeyGo_lt (l : List Nat) : ∀ (i : Nat), (∀ u ∈ l, u < 65536) →
    ∀ u ∈ xorKeyGo i l, u < 65536 := by
  induction l with
  | nil => intro i _ u hu; simp [xorKeyGo] at hu
  | cons a rest ih =>
    intro i hb u hu
    rw [xorKeyGo] at hu
    rcases List.mem_cons.mp hu with rfl | hu
    · exact xor_lt_65536 a _ (hb a (by simp)) (keyCodes_getD_lt i)
    · exact ih (i + 1) (fun x hx => hb x (by simp [hx])) u hu

/-- XOR with the key never creates or destroys a lone surrogate: a string
that `encodeURIComponent` accepts still parses after the XOR pass. -/
theorem utf16_xorKeyGo_isSome : ∀ (l : List Nat) (i : Nat),
    (utf16ToCodepoints l).isSome → (utf16ToCodepoints (xorKeyGo i l)).isSome
  | [], i, _ => by rw [xorKeyGo]; rfl
  | [u], i, h => by
    rw [utf16ToCodepoints] at h
    have hk1 : keyCodes.getD (i % keyCodes.length) 0 < 256 := by
      have := keyCodes_getD_lt i; omega
    by_cases hh : isHighSurr u
    · rw [if_pos hh] at h; simp at h
    · rw [if_neg hh] at h
      by_cases hl : isLowSurr u
      · rw [if_pos hl] at h; simp at h
      · rw [xorKeyGo, xorKeyGo, utf16ToCodepoints]
        rw [isHighSurr_xor u _ hk1, if_neg hh, isLowSurr_xor u _ hk1, if_neg hl]
        rfl
  | u :: l :: rest, i, h => by
    rw [utf16ToCodepoints] at h
    have hk1 : keyCodes.getD (i % keyCodes.length) 0 < 256 := by
      have := keyCodes_getD_lt i; omega
    have hk2 : keyCodes.getD ((i + 1) % keyCodes.length) 0 < 256 := by
      have := keyCodes_getD_lt (i + 1); omega
    by_cases hh : isHighSurr u
    · rw [if_pos hh] at h
      by_cases hl : isLowSurr l
      · rw [if_pos hl] at h
        rcases hrest : utf16ToCodepoints rest with _ | cs
        · rw [hrest] at h; simp at h
        · rw [xorKeyGo, xorKeyGo, utf16ToCodepoints]
          rw [isHighSurr_xor u _ hk1, if_pos hh, isLowSurr_xor l _ hk2, if_pos hl]
          have hrec := utf16_xorKeyGo_isSome rest (i + 2) (by rw [hrest]; rfl)
          rcases Option.isSome_iff_exists.mp hrec with ⟨cs2, hcs2⟩
          rw [hcs2]
          rfl
      · rw [if_neg hl] at h; simp at h
    · rw [if_neg hh] at h
      by_cases hl : isLowSurr u
      · rw [if_pos hl] at h; simp at h
      · rw [if_neg hl] at h
        rcases htl : utf16ToCodepoints (l :: rest) with _ | cs
        · rw [htl] at h; simp at h
        · rw [xorKeyGo, xorKeyGo, utf16ToCodepoints]
          rw [isHighSurr_xor u _ hk1, if_neg hh, isLowSurr_xor u _ hk1, if_neg hl]
          have hrec := utf16_xorKeyGo_isSome (l :: rest) (i + 1) (by rw [htl]; rfl)
          rw [xorKeyGo] at hrec
          rcases Option.isSome_iff_exists.mp hrec with ⟨cs2, hcs2⟩
          rw [hcs2]
          rfl
termination_by l => l.length
decreasing_by all_goals first | (simp; omega) | simp | omega

/-- A unit sequence holding no surrogate at all parses to itself. -/
theorem utf16_nonsurr : ∀ (l : List Nat),
    (∀ u ∈ l, isHighSurr u = false ∧ isLowSurr u = false) →
    utf16ToCodepoints l = some l
  | [], _ => by rw [utf16ToCodepoints]
  | [u], h => by
    obtain ⟨hh, hl⟩ := h u (by simp)
    rw [utf16ToCodepoints, if_neg (by simp [hh]), if_neg (by simp [hl])]
  | u :: l :: rest, h => by
    obtain ⟨hh, hlo⟩ := h u (by simp)
    rw [utf16ToCodepoints, if_neg (by simp [hh]), if_neg (by simp [hlo])]
    rw [utf16_nonsurr (l :: rest) (fun x hx => h x (by simp [hx]))]
    rfl
termination_by l => l.length
decreasing_by all_goals first | (simp; omega) | simp | omega

/-- Parsing distributes over append when the prefix parses on its own. -/
theorem utf16_append : ∀ (A B as : List Nat), utf16ToCodepoints A = some as →
    utf16ToCodepoints (A ++ B) = (utf16ToCodepoints B).map (as ++ ·)
  | [], B, as, h => by
    rw [utf16ToCodepoints, Option.some.injEq] at h
    subst h
    rw [List.nil_append]
    cases hB : utf16ToCodepoints B <;> simp [hB]
  | [u], B, as, h => by
    rw [utf16ToCodepoints] at h
    by_cases hh : isHighSurr u
    · rw [if_pos hh] at h; simp at h
    · rw [if_neg hh] at h
      by_cases hl : isLowSurr u
      · rw [if_pos hl] at h; simp at h
      · rw [if_neg hl, Option.some.injEq] at h
        subst h
        cases B with
        | nil =>
          have h1 : utf16ToCodepoints [u] = some [u] := by
            rw [utf16ToCodepoints, if_neg hh, if_neg hl]
          rw [List.append_nil, h1, utf16ToCodepoints]
          rfl
        | cons b tl =>
          have h1 : utf16ToCodepoints (u :: b :: tl) =
              Option.map (fun x => u :: x) (utf16ToCodepoints (b :: tl)) := by
            rw [utf16ToCodepoints, if_neg hh, if_neg hl]
          simp only [List.cons_append, List.nil_append]
          rw [h1]
  | u :: l :: rest, B, as, h => by
    rw [utf16ToCodepoints] at h
    by_cases hh : isHighSurr u
    · rw [if_pos hh] at h
      by_cases hl : isLowSurr l
      · rw [if_pos hl] at h
        rcases Option.map_eq_some'.mp h with ⟨cs, hcs, hmap⟩
        subst hmap
        simp only [List.cons_append]
        rw [utf16ToCodepoints, if_pos hh, if_pos hl]
        rw [utf16_append rest B cs hcs]
        cases hB : utf16ToCodepoints B <;> simp [hB]
      · rw [if_neg hl] at h; simp at h
    · rw [if_neg hh] at h
      by_cases hl : isLowSurr u
      · rw [if_pos hl] at h; simp at h
      · rw [if_neg hl] at h
        rcases Option.map_eq_some'.mp h with ⟨cs, hcs, hmap⟩
        subst hmap
        simp only [List.cons_append]
        rw [utf16ToCodepoints, if_neg hh, if_neg hl]
        have hrec := utf16_append (l :: rest) B cs hcs
        simp only [List.cons_append] at hrec
        rw [hrec]
        cases hB : utf16ToCodepoints B <;> simp [hB]
termination_by A => A.length
decreasing_by all_goals first | (simp; omega) | simp | omega

/-- Two independently parsable pieces concatenate to a parsable string. -/
theorem utf16_append_isSome (A B : List Nat) (hA : (utf16ToCodepoints A).isSome)
    (hB : (utf16ToCodepoints B).isSome) : (utf16ToCodepoints (A ++ B)).isSome := by
  rcases Option.isSome_iff_exists.mp hA with ⟨as, has⟩
  rcases Option.isSome_iff_exists.mp hB with ⟨bs, hbs⟩
  rw [utf16_append A B as has, hbs]
  rfl

/-- Sub-surrogate units (in particular all ASCII) parse to themselves. -/
theorem utf16_sub_surr (l : List Nat) (h : ∀ u ∈ l, u < 55296) :
    utf16ToCodepoints l = some l :=
  utf16_nonsurr l fun u hu =>
    ⟨by have := h u hu; simp [isHighSurr]; omega,
     by have := h u hu; simp [isLowSurr]; omega⟩

theorem hexDigitCode_lt (n : Nat) (h : n < 16) : hexDigitCode n < 128 := by
  rw [hexDigitCode]; split <;> omega

/-- Every unit emitted by `escapeUnit` is ASCII or the unit itself. -/
theorem escapeUnit_mem (u : Nat) : ∀ c ∈ escapeUnit u, c < 128 ∨ c = u := by
  intro c hc
  by_cases h1 : u = 34
  · rw [escapeUnit, if_pos h1] at hc; simp at hc; omega
  · by_cases h2 : u = 92
    · rw [escapeUnit, if_neg h1, if_pos h2] at hc; simp at hc; omega
    · by_cases h3 : u = 8
      · rw [escapeUnit, if_neg h1, if_neg h2, if_pos h3] at hc; simp at hc; omega
      · by_cases h4 : u = 9
        · rw [escapeUnit, if_neg h1, if_neg h2, if_neg h3, if_pos h4] at hc
          simp at hc; omega
        · by_cases h5 : u = 10
          · rw [escapeUnit, if_neg h1, if_neg h2, if_neg h3, if_neg h4, if_pos h5] at hc
            simp at hc; omega
          · by_cases h6 : u = 12
            · rw [escapeUnit, if_neg h1, if_neg h2, if_neg h3, if_neg h4, if_neg h5,
                if_pos h6] at hc
              simp at hc; omega
            · by_cases h7 : u = 13
              · rw [escapeUnit, if_neg h1, if_neg h2, if_neg h3, if_neg h4, if_neg h5,
                  if_neg h6, if_pos h7] at hc
                simp at hc; omega
              · by_cases h8 : u < 32
                · rw [escapeUnit, if_neg h1, if_neg h2, if_neg h3, if_neg h4, if_neg h5,
                    if_neg h6, if_neg h7, if_pos h8] at hc
                  simp only [List.mem_cons, List.not_mem_nil, or_false] at hc
                  rcases hc with rfl | rfl | rfl | rfl | rfl | rfl
                  · omega
                  · omega
                  · omega
                  · omega
                  · exact Or.inl (hexDigitCode_lt _ (by omega))
                  · exact Or.inl (hexDigitCode_lt _ (by omega))
                · rw [escapeUnit, if_neg h1, if_neg h2, if_neg h3, if_neg h4, if_neg h5,
                    if_neg h6, if_neg h7, if_neg h8] at hc
                  simp at hc
                  omega

theorem escapeUnit_nonsurr (u : Nat) (hh : isHighSurr u = false)
    (hl : isLowSurr u = false) :
    ∀ c ∈ escapeUnit u, isHighSurr c = false ∧ isLowSurr c = false := by
  intro c hc
  rcases escapeUnit_mem u c hc with h | rfl
  · exact ⟨by simp [isHighSurr]; omega, by simp [isLowSurr]; omega⟩
  · exact ⟨hh, hl⟩

theorem escapeUnit_lt (u : Nat) (hu : u < 65536) : ∀ c ∈ escapeUnit u, c < 65536 := by
  intro c hc
  rcases escapeUnit_mem u c hc with h | rfl
  · omega
  · exact hu

theorem escapeUnit_valid (u : Nat) (hh : isHighSurr u = false) (hl : isLowSurr u = false) :
    utf16ToCodepoints (escapeUnit u) = some (escapeUnit u) :=
  utf16_nonsurr _ (escapeUnit_nonsurr u hh hl)

/-- Ordinary printable units pass through the escaper untouched. -/
theorem escapeUnit_id (u : Nat) (h32 : 32 ≤ u) (h34 : u ≠ 34) (h92 : u ≠ 92) :
    escapeUnit u = [u] := by
  rw [escapeUnit, if_neg h34, if_neg h92, if_neg (by omega), if_neg (by omega),
    if_neg (by omega), if_neg (by omega), if_neg (by omega), if_neg (by omega)]

/-- Escaping a well-formed string body yields a well-formed string. -/
theorem escapeStr_valid : ∀ (s : List Nat), (utf16ToCodepoints s).isSome →
    (utf16ToCodepoints (escapeStr s)).isSome
  | [], _ => by rw [escapeStr]; rfl
  | [u], h => by
    rw [utf16ToCodepoints] at h
    by_cases hh : isHighSurr u
    · rw [if_pos hh] at h; simp at h
    · rw [if_neg hh] at h
      by_cases hl : isLowSurr u
      · rw [if_pos hl] at h; simp at h
      · rw [escapeStr, escapeStr, List.append_nil]
        rw [escapeUnit_valid u (by simpa using hh) (by simpa using hl)]
        rfl
  | u :: l :: rest, h => by
    rw [utf16ToCodepoints] at h
    by_cases hh : isHighSurr u
    · rw [if_pos hh] at h
      by_cases hl : isLowSurr l
      · rw [if_pos hl] at h
        rcases hrest : utf16ToCodepoints rest with _ | cs
        · rw [hrest] at h; simp at h
        · have hu2 : 55296 ≤ u ∧ u ≤ 56319 := by simpa [isHighSurr] using hh
          have hl2 : 56320 ≤ l ∧ l ≤ 57343 := by simpa [isLowSurr] using hl
          rw [escapeStr, escapeStr]
          rw [escapeUnit_id u (by omega) (by omega) (by omega),
            escapeUnit_id l (by omega) (by omega) (by omega)]
          simp only [List.cons_append, List.nil_append]
          rw [utf16ToCodepoints, if_pos hh, if_pos hl]
          have hrec := escapeStr_valid rest (by rw [hrest]; rfl)
          rcases Option.isSome_iff_exists.mp hrec with ⟨cs2, hcs2⟩
          rw [hcs2]
          rfl
      · rw [if_neg hl] at h; simp at h
    · rw [if_neg hh] at h
      by_cases hl : isLowSurr u
      · rw [if_pos hl] at h; simp at h
      · rw [if_neg hl] at h
        have htl : (utf16ToCodepoints (l :: rest)).isSome := by
          rcases hx : utf16ToCodepoints (l :: rest) with _ | cs
          · rw [hx] at h; simp at h
          · rfl
        rw [escapeStr]
        exact utf16_append_isSome _ _
          (by rw [escapeUnit_valid u (by simpa using hh) (by simpa using hl)]; rfl)
          (escapeStr_valid (l :: rest) htl)
termination_by s => s.length
decreasing_by all_goals first | (simp; omega) | simp | omega

theorem escapeStr_lt : ∀ (s : List Nat), (∀ u ∈ s, u < 65536) →
    ∀ c ∈ escapeStr s, c < 65536 := by
  intro s
  induction s with
  | nil => intro _ c hc; simp [escapeStr] at hc
  | cons u rest ih =>
    intro hb c hc
    rw [escapeStr] at hc
    rcases List.mem_append.mp hc with h | h
    · exact escapeUnit_lt u (hb u (by simp)) c h
    · exact ih (fun x hx => hb x (by simp [hx])) c h

/-- A rendered integer is all ASCII. -/
theorem intCodes_mem (i : Int) : ∀ c ∈ intCodes i, c < 128 := by
  intro c hc
  rw [intCodes] at hc
  split at hc
  · rcases List.mem_cons.mp hc with rfl | h
    · omega
    · rw [natToDecCodes] at h
      rcases List.mem_map.mp h with ⟨d, hd, rfl⟩
      have := natDigits_lt10 _ d hd
      omega
  · rw [natToDecCodes] at hc
    rcases List.mem_map.mp hc with ⟨d, hd, rfl⟩
    have := natDigits_lt10 _ d hd
    omega

/-- Quoting a well-formed string body yields a well-formed JS string. -/
theorem quoteStr_valid (s : List Nat) (h : (utf16ToCodepoints s).isSome) :
    (utf16ToCodepoints (quoteStr s)).isSome := by
  rw [quoteStr]
  have h1 := utf16_append_isSome [34] (escapeStr s ++ [34])
    (by rw [utf16_sub_surr [34] (by intro u hu; simp at hu; omega)]; rfl)
    (utf16_append_isSome _ _ (escapeStr_valid s h)
      (by rw [utf16_sub_surr [34] (by intro u hu; simp at hu; omega)]; rfl))
  simpa using h1

theorem quoteStr_lt (s : List Nat) (h : ∀ u ∈ s, u < 65536) :
    ∀ c ∈ quoteStr s, c < 65536 := by
  intro c hc
  rw [quoteStr] at hc
  rcases List.mem_cons.mp hc with rfl | hc
  · omega
  · rcases List.mem_append.mp hc with hx | hx
    · exact escapeStr_lt s h c hx
    · simp at hx; omega

mutual

/-- The serialized form of a well-formed value is a well-formed JS string
(parsable UTF-16, all units in range). -/
theorem jsonStringify_valid : (v : JVal) → jvalWF v = true →
    (utf16ToCodepoints (jsonStringify v)).isSome ∧ ∀ c ∈ jsonStringify v, c < 65536
  | .null, _ => by rw [jsonStringify]; exact ⟨by decide, by decide⟩
  | .bool true, _ => by rw [jsonStringify]; exact ⟨by decide, by decide⟩
  | .bool false, _ => by rw [jsonStringify]; exact ⟨by decide, by decide⟩
  | .num i, _ => by
    rw [jsonStringify]
    refine ⟨by rw [utf16_sub_surr _ fun c hc => by have := intCodes_mem i c hc; omega]; rfl,
      fun c hc => by have := intCodes_mem i c hc; omega⟩
  | .str s, hv => by
    rw [jvalWF, validStr, Bool.and_eq_true] at hv
    have hsb : ∀ u ∈ s, u < 65536 := fun u hu => by
      have := List.all_eq_true.mp hv.2 u hu
      simpa using this
    rw [jsonStringify]
    exact ⟨quoteStr_valid s hv.1, quoteStr_lt s hsb⟩
  | .arr l, hv => by
    rw [jvalWF] at hv
    obtain ⟨hsome, hlt⟩ := jsonStringifyArr_valid l hv
    rw [jsonStringify]
    constructor
    · have h1 := utf16_append_isSome [91] (jsonStringifyArr l ++ [93])
        (by rw [utf16_sub_surr [91] (by intro u hu; simp at hu; omega)]; rfl)
        (utf16_append_isSome _ _ hsome
          (by rw [utf16_sub_surr [93] (by intro u hu; simp at hu; omega)]; rfl))
      simpa using h1
    · intro c hc
      rcases List.mem_cons.mp hc with rfl | hc
      · omega
      · rcases List.mem_append.mp hc with h | h
        · exact hlt c h
        · simp at h; omega
  | .obj es, hv => by
    rw [jvalWF] at hv
    obtain ⟨hsome, hlt⟩ := jsonStringifyObj_valid es hv
    rw [jsonStringify]
    constructor
    · have h1 := utf16_append_isSome [123] (jsonStringifyObj es ++ [125])
        (by rw [utf16_sub_surr [123] (by intro u hu; simp at hu; omega)]; rfl)
        (utf16_append_isSome _ _ hsome
          (by rw [utf16_sub_surr [125] (by intro u hu; simp at hu; omega)]; rfl))
      simpa using h1
    · intro c hc
      rcases List.mem_cons.mp hc with rfl | hc
      · omega
      · rcases List.mem_append.mp hc with h | h
        · exact hlt c h
        · simp at h; omega
termination_by v => (sizeOf v, 0)

/-- `jsonStringify_valid` over comma-joined array elements. -/
theorem jsonStringifyArr_valid : (l : List JVal) → jvalWFList l = true →
    (utf16ToCodepoints (jsonStringifyArr l)).isSome ∧
      ∀ c ∈ jsonStringifyArr l, c < 65536
  | [], _ => by
    rw [jsonStringifyArr]
    exact ⟨by rw [utf16ToCodepoints]; rfl, by simp⟩
  | [v], hv => by
    rw [jvalWFList, jvalWFList, Bool.and_eq_true] at hv
    rw [jsonStringifyArr]
    exact jsonStringify_valid v hv.1
  | v :: w :: ws, hv => by
    rw [jvalWFList, Bool.and_eq_true] at hv
    obtain ⟨h1, h2⟩ := jsonStringify_valid v hv.1
    obtain ⟨h3, h4⟩ := jsonStringifyArr_valid (w :: ws) hv.2
    have hsrw : jsonStringifyArr (v :: w :: ws) =
        jsonStringify v ++ 44 :: jsonStringifyArr (w :: ws) := by
      rw [jsonStringifyArr]
      simp
    rw [hsrw]
    constructor
    · have h5 := utf16_append_isSome (jsonStringify v) ([44] ++ jsonStringifyArr (w :: ws))
        h1
        (utf16_append_isSome [44] _
          (by rw [utf16_sub_surr [44] (by intro u hu; simp at hu; omega)]; rfl) h3)
      simpa using h5
    · intro c hc
      rcases List.mem_append.mp hc with h | h
      · exact h2 c h
      · rcases List.mem_cons.mp h with rfl | h
        · omega
        · exact h4 c h
termination_by l => (sizeOf l, 1)

/-- `jsonStringify_valid` over comma-joined object entries. -/
theorem jsonStringifyObj_valid : (es : List (List Nat × JVal)) → jvalWFEntries es = true →
    (utf16ToCodepoints (jsonStringifyObj es)).isSome ∧
      ∀ c ∈ jsonStringifyObj es, c < 65536
  | [], _ => by
    rw [jsonStringifyObj]
    exact ⟨by rw [utf16ToCodepoints]; rfl, by simp⟩
  | [(k, v)], hv => by
    rw [jvalWFEntries, jvalWFEntries, validStr, Bool.and_eq_true, Bool.and_eq_true,
      Bool.and_eq_true] at hv
    obtain ⟨⟨⟨hks, hkb⟩, hwv⟩, _⟩ := hv
    have hkball : ∀ u ∈ k, u < 65536 := fun u hu => by
      have := List.all_eq_true.mp hkb u hu
      simpa using this
    obtain ⟨h1, h2⟩ := jsonStringify_valid v hwv
    rw [jsonStringifyObj]
    constructor
    · have h5 := utf16_append_isSome (quoteStr k) ([58] ++ jsonStringify v)
        (quoteStr_valid k hks)
        (utf16_append_isSome [58] _
          (by rw [utf16_sub_surr [58] (by intro u hu; simp at hu; omega)]; rfl) h1)
      simpa using h5
    · intro c hc
      rcases List.mem_append.mp hc with h | h
      · exact quoteStr_lt k hkball c h
      · rcases List.mem_cons.mp h with rfl | h
        · omega
        · exact h2 c h
  | (k, v) :: e :: es, hv => by
    rw [jvalWFEntries, validStr, Bool.and_eq_true, Bool.and_eq_true,
      Bool.and_eq_true] at hv
    obtain ⟨⟨⟨hks, hkb⟩, hwv⟩, hrest⟩ := hv
    have hkball : ∀ u ∈ k, u < 65536 := fun u hu => by
      have := List.all_eq_true.mp hkb u hu
      simpa using this
    obtain ⟨h1, h2⟩ := jsonStringify_valid v hwv
    obtain ⟨h3, h4⟩ := jsonStringifyObj_valid (e :: es) hrest
    have hsrw : jsonStringifyObj ((k, v) :: e :: es) =
        quoteStr k ++ 58 :: jsonStringify v ++ 44 :: jsonStringifyObj (e :: es) := by
      rw [jsonStringifyObj]
      simp
    rw [hsrw]
    constructor
    · have h5 := utf16_append_isSome (quoteStr k ++ ([58] ++ jsonStringify v))
        ([44] ++ jsonStringifyObj (e :: es))
        (utf16_append_isSome _ _ (quoteStr_valid k hks)
          (utf16_append_isSome [58] _
            (by rw [utf16_sub_surr [58] (by intro u hu; simp at hu; omega)]; rfl) h1))
        (utf16_append_isSome [44] _
          (by rw [utf16_sub_surr [44] (by intro u hu; simp at hu; omega)]; rfl) h3)
      simpa using h5
    · intro c hc
      rcases List.mem_append.mp hc with h | h
      · rcases List.mem_append.mp h with h | h
        · exact quoteStr_lt k hkball c h
        · rcases List.mem_cons.mp h with rfl | h
          · omega
          · exact h2 c h
      · rcases List.mem_cons.mp h with rfl | h
        · omega
        · exact h4 c h
termination_by es => (sizeOf es, 1)

end

theorem hexVal_hexDigitCode (n : Nat) (h : n < 16) : hexVal (hexDigitCode n) = some n := by
  have hall : ∀ m, m < 16 → hexVal (hexDigitCode m) = some m := by decide
  exact hall n h

/-- The string parser undoes the JSON escaper up to the closing quote. -/
theorem parseStrBody_escape (s : List Nat) : ∀ (rest : List Nat),
    parseStrBody (escapeStr s ++ 34 :: rest) = some (s, rest) := by
  induction s with
  | nil =>
    intro rest
    rw [escapeStr, List.nil_append, parseStrBody, if_pos rfl]
  | cons u tail ih =>
    intro rest
    rw [escapeStr, List.append_assoc]
    by_cases h1 : u = 34
    · subst h1
      rw [escapeUnit, if_pos rfl]
      simp only [List.cons_append, List.nil_append]
      rw [parseStrBody, if_neg (by decide), if_pos rfl]
      rw [parseEsc, if_pos rfl, ih]
      rfl
    · by_cases h2 : u = 92
      · subst h2
        rw [escapeUnit, if_neg (by decide), if_pos rfl]
        simp only [List.cons_append, List.nil_append]
        rw [parseStrBody, if_neg (by decide), if_pos rfl]
        rw [parseEsc, if_neg (by decide), if_pos rfl, ih]
        rfl
      · by_cases h3 : u = 8
        · subst h3
          rw [escapeUnit, if_neg (by decide), if_neg (by decide), if_pos rfl]
          simp only [List.cons_append, List.nil_append]
          rw [parseStrBody, if_neg (by decide), if_pos rfl]
          rw [parseEsc, if_neg (by decide), if_neg (by decide), if_neg (by decide),
            if_pos rfl, ih]
          rfl
        · by_cases h4 : u = 9
          · subst h4
            rw [escapeUnit, if_neg (by decide), if_neg (by decide), if_neg (by decide),
              if_pos rfl]
            simp only [List.cons_append, List.nil_append]
            rw [parseStrBody, if_neg (by decide), if_pos rfl]
            rw [parseEsc, if_neg (by decide), if_neg (by decide), if_neg (by decide),
              if_neg (by decide), if_pos rfl, ih]
            rfl
          · by_cases h5 : u = 10
            · subst h5
              rw [escapeUnit, if_neg (by decide), if_neg (by decide), if_neg (by decide),
                if_neg (by decide), if_pos rfl]
              simp only [List.cons_append, List.nil_append]
              rw [parseStrBody, if_neg (by decide), if_pos rfl]
              rw [parseEsc, if_neg (by decide), if_neg (by decide), if_neg (by decide),
                if_neg (by decide), if_neg (by decide), if_pos rfl, ih]
              rfl
            · by_cases h6 : u = 12
              · subst h6
                rw [escapeUnit, if_neg (by decide), if_neg (by decide),
                  if_neg (by decide), if_neg (by decide), if_neg (by decide), if_pos rfl]
                simp only [List.cons_append, List.nil_append]
                rw [parseStrBody, if_neg (by decide), if_pos rfl]
                rw [parseEsc, if_neg (by decide), if_neg (by decide), if_neg (by decide),
                  if_neg (by decide), if_neg (by decide), if_neg (by decide),
                  if_pos rfl, ih]
                rfl
              · by_cases h7 : u = 13
                · subst h7
                  rw [escapeUnit, if_neg (by decide), if_neg (by decide),
                    if_neg (by decide), if_neg (by decide), if_neg (by decide),
                    if_neg (by decide), if_pos rfl]
                  simp only [List.cons_append, List.nil_append]
                  rw [parseStrBody, if_neg (by decide), if_pos rfl]
                  rw [parseEsc, if_neg (by decide), if_neg (by decide),
                    if_neg (by decide), if_neg (by decide), if_neg (by decide),
                    if_neg (by decide), if_neg (by decide), if_pos rfl, ih]
                  rfl
                · by_cases h8 : u < 32
                  · rw [escapeUnit, if_neg h1, if_neg h2, if_neg h3, if_neg h4,
                      if_neg h5, if_neg h6, if_neg h7, if_pos h8]
                    have e1 : hexVal (hexDigitCode (u / 16)) = some (u / 16) :=
                      hexVal_hexDigitCode _ (by omega)
                    have e2 : hexVal (hexDigitCode (u % 16)) = some (u % 16) :=
                      hexVal_hexDigitCode _ (by omega)
                    simp only [List.cons_append, List.nil_append]
                    rw [parseStrBody, if_neg (by decide), if_pos rfl]
                    rw [parseEsc, if_neg (by decide), if_neg (by decide),
                      if_neg (by decide), if_neg (by decide), if_neg (by decide),
                      if_neg (by decide), if_neg (by decide), if_neg (by decide),
                      if_pos rfl]
                    rw [parseHex4, show hexVal 48 = some 0 from by decide, e1, e2, ih]
                    simp only [Option.some_bind, Option.map_some', Option.some.injEq,
                      Prod.mk.injEq, List.cons.injEq, and_true, true_and]
                    omega
                  · rw [escapeUnit_id u (by omega) h1 h2]
                    simp only [List.cons_append, List.nil_append]
                    rw [parseStrBody, if_neg h1, if_neg h2, if_neg h8, ih]
                    rfl

/-- Accumulating digits consumes exactly the rendered digits. -/
theorem parseDigitsGo_append (ds : List Nat) : ∀ (acc : Nat) (rest : List Nat),
    (∀ d ∈ ds, d < 10) → nonDigitLead rest →
    parseDigitsGo acc (ds.map (· + 48) ++ rest) =
      (ds.foldl (fun a d => a * 10 + d) acc, rest) := by
  induction ds with
  | nil =>
    intro acc rest _ hrest
    simp only [List.map_nil, List.nil_append, List.foldl_nil]
    rcases hrest with rfl | ⟨c, t, rfl, hc⟩
    · rw [parseDigitsGo]
    · rw [parseDigitsGo, if_neg hc]
  | cons d ds ih =>
    intro acc rest hds hrest
    simp only [List.map_cons, List.cons_append, List.foldl_cons]
    rw [parseDigitsGo, if_pos (by have := hds d (by simp); omega)]
    have h : d + 48 - 48 = d := by omega
    rw [h]
    exact ih _ rest (fun x hx => hds x (by simp [hx])) hrest

/-- The number parser undoes the decimal renderer in any non-digit
context. -/
theorem parseNumber_intCodes (i : Int) (rest : List Nat) (hrest : nonDigitLead rest) :
    parseNumber (intCodes i ++ rest) = some (i, rest) := by
  rw [intCodes]
  by_cases hi : i < 0
  · rw [if_pos hi, natToDecCodes]
    rcases hnd : natDigits i.natAbs with _ | ⟨d, ds⟩
    · exact absurd hnd (natDigits_ne_nil _)
    · have hall : ∀ x ∈ d :: ds, x < 10 := by
        rw [← hnd]; exact natDigits_lt10 _
      have hdig : 48 ≤ d + 48 ∧ d + 48 ≤ 57 := by
        have := hall d (by simp); omega
      have hp := parseDigitsGo_append (d :: ds) 0 rest hall hrest
      have hv := decOfDigits_natDigits i.natAbs
      rw [decOfDigits, hnd] at hv
      simp only [List.map_cons, List.cons_append] at hp ⊢
      rw [parseNumber, if_pos rfl, parseNegNumber, if_pos hdig]
      simp only [hp, hv]
      simp only [Option.some.injEq, Prod.mk.injEq, and_true]
      omega
  · rw [if_neg hi, natToDecCodes]
    rcases hnd : natDigits i.toNat with _ | ⟨d, ds⟩
    · exact absurd hnd (natDigits_ne_nil _)
    · have hall : ∀ x ∈ d :: ds, x < 10 := by
        rw [← hnd]; exact natDigits_lt10 _
      have hdig : 48 ≤ d + 48 ∧ d + 48 ≤ 57 := by
        have := hall d (by simp); omega
      have hne45 : ¬(d + 48 = 45) := by omega
      have hp := parseDigitsGo_append (d :: ds) 0 rest hall hrest
      have hv := decOfDigits_natDigits i.toNat
      rw [decOfDigits, hnd] at hv
      simp only [List.map_cons, List.cons_append] at hp ⊢
      rw [parseNumber, if_neg hne45, if_pos hdig]
      simp only [hp, hv]
      simp only [Option.some.injEq, Prod.mk.injEq, and_true]
      omega

theorem skipWs_cons (c : Nat) (t : List Nat) (h : ¬(c = 32 ∨ c = 9 ∨ c = 10 ∨ c = 13)) :
    skipWs (c :: t) = c :: t := by
  rw [skipWs, if_neg h]

/-- Every serialized value starts with a visible unit that is not a JSON
close bracket. -/
theorem jsonStringify_head (v : JVal) :
    ∃ c t, jsonStringify v = c :: t ∧ 34 ≤ c ∧ c ≤ 123 ∧ c ≠ 93 := by
  cases v with
  | null =>
    exact ⟨110, [117, 108, 108], by rw [jsonStringify]; decide, by decide, by decide,
      by decide⟩
  | bool b =>
    cases b with
    | true =>
      exact ⟨116, [114, 117, 101], by rw [jsonStringify]; decide, by decide, by decide,
        by decide⟩
    | false =>
      exact ⟨102, [97, 108, 115, 101], by rw [jsonStringify]; decide, by decide,
        by decide, by decide⟩
  | num i =>
    by_cases hi : i < 0
    · exact ⟨45, natToDecCodes i.natAbs, by rw [jsonStringify, intCodes, if_pos hi],
        by omega, by omega, by omega⟩
    · rcases hnd : natDigits i.toNat with _ | ⟨d, ds⟩
      · exact absurd hnd (natDigits_ne_nil _)
      · have hd : d < 10 := natDigits_lt10 _ d (by rw [hnd]; simp)
        refine ⟨d + 48, ds.map (· + 48), ?_, by omega, by omega, by omega⟩
        rw [jsonStringify, intCodes, if_neg hi, natToDecCodes, hnd, List.map_cons]
  | str s =>
    exact ⟨34, escapeStr s ++ [34], by rw [jsonStringify, quoteStr]; simp, by decide,
      by decide, by decide⟩
  | arr l =>
    exact ⟨91, jsonStringifyArr l ++ [93], by rw [jsonStringify]; simp, by decide,
      by decide, by decide⟩
  | obj es =>
    exact ⟨123, jsonStringifyObj es ++ [125], by rw [jsonStringify]; simp, by decide,
      by decide, by decide⟩

/-- A serialized value is never the empty string (so `getItem` never takes
its falsy-decryption branch on a stored value). -/
theorem jsonStringify_ne_nil (v : JVal) : jsonStringify v ≠ [] := by
  obtain ⟨c, t, heq, _⟩ := jsonStringify_head v
  rw [heq]
  simp

theorem jfuel_pos (v : JVal) : 1 ≤ jfuel v := by
  cases v <;> simp [jfuel]

mutual

/-- The length-based fuel that `jsonParse` passes in covers the value. -/
theorem jfuel_le_len : (v : JVal) → jfuel v ≤ (jsonStringify v).length
  | .null => by
    obtain ⟨c, t, heq, _⟩ := jsonStringify_head .null
    have h1 : jfuel JVal.null = 1 := by simp [jfuel]
    rw [heq, h1, List.length_cons]
    omega
  | .bool b => by
    obtain ⟨c, t, heq, _⟩ := jsonStringify_head (.bool b)
    have h1 : jfuel (JVal.bool b) = 1 := by simp [jfuel]
    rw [heq, h1, List.length_cons]
    omega
  | .num i => by
    obtain ⟨c, t, heq, _⟩ := jsonStringify_head (.num i)
    have h1 : jfuel (JVal.num i) = 1 := by simp [jfuel]
    rw [heq, h1, List.length_cons]
    omega
  | .str s => by
    obtain ⟨c, t, heq, _⟩ := jsonStringify_head (.str s)
    have h1 : jfuel (JVal.str s) = 1 := by simp [jfuel]
    rw [heq, h1, List.length_cons]
    omega
  | .arr l => by
    have h1 : jfuel (JVal.arr l) = 1 + jfuelArr l := by simp [jfuel]
    rw [h1, jsonStringify]
    simp only [List.length_cons, List.length_append, List.length_cons, List.length_nil]
    have := jfuelArr_le_len l
    omega
  | .obj es => by
    have h1 : jfuel (JVal.obj es) = 1 + jfuelObj es := by simp [jfuel]
    rw [h1, jsonStringify]
    simp only [List.length_cons, List.length_append, List.length_cons, List.length_nil]
    have := jfuelObj_le_len es
    omega
termination_by v => (sizeOf v, 0)

/-- `jfuel_le_len` over array elements. -/
theorem jfuelArr_le_len : (l : List JVal) → jfuelArr l ≤ (jsonStringifyArr l).length + 1
  | [] => by rw [jfuelArr]; omega
  | [v] => by
    rw [jfuelArr, jfuelArr, Nat.max_zero, jsonStringifyArr]
    have := jfuel_le_len v
    omega
  | v :: w :: ws => by
    rw [jfuelArr]
    have hsrw : jsonStringifyArr (v :: w :: ws) =
        jsonStringify v ++ 44 :: jsonStringifyArr (w :: ws) := by
      rw [jsonStringifyArr]
      simp
    rw [hsrw]
    have h1 := jfuel_le_len v
    have h2 := jfuelArr_le_len (w :: ws)
    simp only [List.length_append, List.length_cons]
    rcases Nat.le_total (jfuel v) (jfuelArr (w :: ws)) with hle | hle
    · rw [Nat.max_eq_right hle]; omega
    · rw [Nat.max_eq_left hle]; omega
termination_by l => (sizeOf l, 1)

/-- `jfuel_le_len` over object entries. -/
theorem jfuelObj_le_len : (es : List (List Nat × JVal)) →
    jfuelObj es ≤ (jsonStringifyObj es).length + 1
  | [] => by rw [jfuelObj]; omega
  | [(k, v)] => by
    rw [jfuelObj, jfuelObj, Nat.max_zero, jsonStringifyObj]
    have := jfuel_le_len v
    simp only [List.length_append, List.length_cons]
    omega
  | (k, v) :: e :: es => by
    rw [jfuelObj]
    have hsrw : jsonStringifyObj ((k, v) :: e :: es) =
        quoteStr k ++ 58 :: jsonStringify v ++ 44 :: jsonStringifyObj (e :: es) := by
      rw [jsonStringifyObj]
      simp
    rw [hsrw]
    have h1 := jfuel_le_len v
    have h2 := jfuelObj_le_len (e :: es)
    simp only [List.length_append, List.length_cons]
    rcases Nat.le_total (jfuel v) (jfuelObj (e :: es)) with hle | hle
    · rw [Nat.max_eq_right hle]; omega
    · rw [Nat.max_eq_left hle]; omega
termination_by es => (sizeOf es, 1)

end

/-- A rendered integer starts with a minus sign or a digit. -/
theorem intCodes_head (i : Int) :
    ∃ c t, intCodes i = c :: t ∧ (c = 45 ∨ (48 ≤ c ∧ c ≤ 57)) := by
  rw [intCodes]
  by_cases hi : i < 0
  · rw [if_pos hi]
    exact ⟨45, natToDecCodes i.natAbs, rfl, Or.inl rfl⟩
  · rw [if_neg hi, natToDecCodes]
    rcases hnd : natDigits i.toNat with _ | ⟨d, ds⟩
    · exact absurd hnd (natDigits_ne_nil _)
    · have hd : d < 10 := natDigits_lt10 _ d (by rw [hnd]; simp)
      exact ⟨d + 48, ds.map (· + 48), by rw [List.map_cons], Or.inr (by omega)⟩

mutual

/-- With enough fuel, the parser undoes the serializer on any value
followed by a non-digit remainder. -/
theorem parseVal_stringify : ∀ (fuel : Nat) (v : JVal) (rest : List Nat),
    jfuel v ≤ fuel → nonDigitLead rest →
    parseVal fuel (jsonStringify v ++ rest) = some (v, rest)
  | 0, v, _, hf, _ => by
    have := jfuel_pos v
    omega
  | fuel + 1, v, rest, hf, hrest => by
    rw [parseVal]
    cases v with
    | null =>
      rw [show jsonStringify JVal.null = [110, 117, 108, 108] from by
        rw [jsonStringify]; decide]
      simp only [List.cons_append, List.nil_append]
      rw [skipWs_cons _ _ (by decide), parseValAt, if_pos rfl, parseNullTail]
    | bool b =>
      cases b with
      | true =>
        rw [show jsonStringify (JVal.bool true) = [116, 114, 117, 101] from by
          rw [jsonStringify]; decide]
        simp only [List.cons_append, List.nil_append]
        rw [skipWs_cons _ _ (by decide), parseValAt, if_neg (by decide), if_pos rfl,
          parseTrueTail]
      | false =>
        rw [show jsonStringify (JVal.bool false) = [102, 97, 108, 115, 101] from by
          rw [jsonStringify]; decide]
        simp only [List.cons_append, List.nil_append]
        rw [skipWs_cons _ _ (by decide), parseValAt, if_neg (by decide),
          if_neg (by decide), if_pos rfl, parseFalseTail]
    | num i =>
      obtain ⟨c, t, heq, hc⟩ := intCodes_head i
      rw [jsonStringify, heq, List.cons_append, skipWs_cons _ _ (by omega), parseValAt]
      rw [if_neg (by omega), if_neg (by omega), if_neg (by omega), if_neg (by omega),
        if_neg (by omega), if_neg (by omega)]
      rw [← List.cons_append, ← heq, parseNumber_intCodes i rest hrest]
      rfl
    | str s =>
      rw [jsonStringify, quoteStr]
      simp only [List.cons_append, List.append_assoc, List.nil_append]
      rw [skipWs_cons _ _ (by decide), parseValAt, if_neg (by decide),
        if_neg (by decide), if_neg (by decide), if_pos rfl, parseStrBody_escape]
      rfl
    | arr l =>
      rw [jsonStringify]
      simp only [List.cons_append, List.append_assoc, List.nil_append]
      rw [skipWs_cons _ _ (by decide), parseValAt, if_neg (by decide),
        if_neg (by decide), if_neg (by decide), if_neg (by decide), if_pos rfl]
      cases l with
      | nil =>
        rw [jsonStringifyArr]
        simp only [List.nil_append]
        rw [skipWs_cons _ _ (by decide), parseArrStart, if_pos rfl]
      | cons w ws =>
        obtain ⟨c, t, heq, hc1, hc2, hc3⟩ := jsonStringify_head w
        have harr : ∃ t2, jsonStringifyArr (w :: ws) = c :: t2 := by
          cases ws with
          | nil => exact ⟨t, by rw [jsonStringifyArr, heq]⟩
          | cons x xs =>
            refine ⟨t ++ 44 :: jsonStringifyArr (x :: xs), ?_⟩
            have hsrw : jsonStringifyArr (w :: x :: xs) =
                jsonStringify w ++ 44 :: jsonStringifyArr (x :: xs) := by
              rw [jsonStringifyArr]
              simp
            rw [hsrw, heq, List.cons_append]
        obtain ⟨t2, heq2⟩ := harr
        rw [heq2, List.cons_append, skipWs_cons _ _ (by omega), parseArrStart,
          if_neg (by omega)]
        rw [← List.cons_append, ← heq2]
        have hfa : jfuelArr (w :: ws) ≤ fuel := by
          have h1 : jfuel (JVal.arr (w :: ws)) = 1 + jfuelArr (w :: ws) := by
            simp [jfuel]
          rw [h1] at hf
          omega
        rw [parseArrTail_stringify fuel (w :: ws) rest (by simp) hfa]
        rfl
    | obj es =>
      rw [jsonStringify]
      simp only [List.cons_append, List.append_assoc, List.nil_append]
      rw [skipWs_cons _ _ (by decide), parseValAt, if_neg (by decide),
        if_neg (by decide), if_neg (by decide), if_neg (by decide), if_neg (by decide),
        if_pos rfl]
      cases es with
      | nil =>
        rw [jsonStringifyObj]
        simp only [List.nil_append]
        rw [skipWs_cons _ _ (by decide), parseObjStart, if_pos rfl]
      | cons kv es2 =>
        obtain ⟨k, v2⟩ := kv
        have hobj : ∃ t2, jsonStringifyObj ((k, v2) :: es2) = 34 :: t2 := by
          cases es2 with
          | nil =>
            refine ⟨(escapeStr k ++ [34]) ++ 58 :: jsonStringify v2, ?_⟩
            rw [jsonStringifyObj, quoteStr]
            simp
          | cons e es3 =>
            refine ⟨(escapeStr k ++ [34]) ++ 58 :: jsonStringify v2 ++
              44 :: jsonStringifyObj (e :: es3), ?_⟩
            have hsrw : jsonStringifyObj ((k, v2) :: e :: es3) =
                quoteStr k ++ 58 :: jsonStringify v2 ++
                  44 :: jsonStringifyObj (e :: es3) := by
              rw [jsonStringifyObj]
              simp
            rw [hsrw, quoteStr]
            simp
        obtain ⟨t2, heq2⟩ := hobj
        rw [heq2, List.cons_append, skipWs_cons _ _ (by decide), parseObjStart,
          if_neg (by decide)]
        rw [← List.cons_append, ← heq2]
        have hfo : jfuelObj ((k, v2) :: es2) ≤ fuel := by
          have h1 : jfuel (JVal.obj ((k, v2) :: es2)) = 1 + jfuelObj ((k, v2) :: es2) := by
            simp [jfuel]
          rw [h1] at hf
          omega
        rw [parseObjTail_stringify fuel ((k, v2) :: es2) rest (by simp) hfo]
        rfl
termination_by fuel => fuel

/-- `parseVal_stringify` over a nonempty serialized array body. -/
theorem parseArrTail_stringify : ∀ (fuel : Nat) (vs : List JVal) (rest : List Nat),
    vs ≠ [] → jfuelArr vs ≤ fuel →
    parseArrTail fuel (jsonStringifyArr vs ++ 93 :: rest) = some (vs, rest)
  | _, [], _, hne, _ => absurd rfl hne
  | 0, v :: vs, _, _, hf => by
    rw [jfuelArr] at hf
    omega
  | fuel + 1, v :: vs, rest, _, hf => by
    cases vs with
    | nil =>
      rw [jsonStringifyArr, parseArrTail]
      have hfv : jfuel v ≤ fuel := by
        rw [jfuelArr, jfuelArr, Nat.max_zero] at hf
        omega
      rw [parseVal_stringify fuel v (93 :: rest) hfv (Or.inr ⟨93, rest, rfl, by omega⟩)]
      simp only [Option.some_bind]
      rw [skipWs_cons _ _ (by decide), parseArrSep, if_neg (by decide), if_pos rfl]
    | cons w ws =>
      have hsrw : jsonStringifyArr (v :: w :: ws) =
          jsonStringify v ++ 44 :: jsonStringifyArr (w :: ws) := by
        rw [jsonStringifyArr]
        simp
      rw [hsrw]
      simp only [List.append_assoc, List.cons_append]
      rw [parseArrTail]
      have hm1 := Nat.le_max_left (jfuel v) (jfuelArr (w :: ws))
      have hm2 := Nat.le_max_right (jfuel v) (jfuelArr (w :: ws))
      rw [jfuelArr] at hf
      have hfv : jfuel v ≤ fuel := by omega
      have hfa : jfuelArr (w :: ws) ≤ fuel := by omega
      rw [parseVal_stringify fuel v (44 :: (jsonStringifyArr (w :: ws) ++ 93 :: rest))
        hfv (Or.inr ⟨44, _, rfl, by omega⟩)]
      simp only [Option.some_bind]
      rw [skipWs_cons _ _ (by decide), parseArrSep, if_pos rfl]
      rw [parseArrTail_stringify fuel (w :: ws) rest (by simp) hfa]
      rfl
termination_by fuel => fuel

/-- `parseVal_stringify` over a nonempty serialized object body. -/
theorem parseObjTail_stringify : ∀ (fuel : Nat) (es : List (List Nat × JVal))
    (rest : List Nat), es ≠ [] → jfuelObj es ≤ fuel →
    parseObjTail fuel (jsonStringifyObj es ++ 125 :: rest) = some (es, rest)
  | _, [], _, hne, _ => absurd rfl hne
  | 0, (k, v) :: es, _, _, hf => by
    rw [jfuelObj] at hf
    omega
  | fuel + 1, (k, v) :: es, rest, _, hf => by
    rw [parseObjTail]
    cases es with
    | nil =>
      rw [jsonStringifyObj, quoteStr]
      simp only [List.cons_append, List.append_assoc, List.nil_append]
      rw [skipWs_cons _ _ (by decide), parseObjKey, if_pos rfl, parseStrBody_escape]
      simp only [Option.some_bind]
      rw [skipWs_cons _ _ (by decide), parseObjColon, if_pos rfl]
      have hfv : jfuel v ≤ fuel := by
        rw [jfuelObj, jfuelObj, Nat.max_zero] at hf
        omega
      rw [parseVal_stringify fuel v (125 :: rest) hfv (Or.inr ⟨125, rest, rfl, by omega⟩)]
      simp only [Option.some_bind]
      rw [skipWs_cons _ _ (by decide), parseObjSep, if_neg (by decide), if_pos rfl]
    | cons e es2 =>
      have hsrw : jsonStringifyObj ((k, v) :: e :: es2) =
          quoteStr k ++ 58 :: jsonStringify v ++ 44 :: jsonStringifyObj (e :: es2) := by
        rw [jsonStringifyObj]
        simp
      rw [hsrw, quoteStr]
      simp only [List.cons_append, List.append_assoc, List.nil_append]
      rw [skipWs_cons _ _ (by decide), parseObjKey, if_pos rfl, parseStrBody_escape]
      simp only [Option.some_bind]
      rw [skipWs_cons _ _ (by decide), parseObjColon, if_pos rfl]
      have hm1 := Nat.le_max_left (jfuel v) (jfuelObj (e :: es2))
      have hm2 := Nat.le_max_right (jfuel v) (jfuelObj (e :: es2))
      rw [jfuelObj] at hf
      have hfv : jfuel v ≤ fuel := by omega
      have hfo : jfuelObj (e :: es2) ≤ fuel := by omega
      rw [parseVal_stringify fuel v
        (44 :: (jsonStringifyObj (e :: es2) ++ 125 :: rest)) hfv
        (Or.inr ⟨44, _, rfl, by omega⟩)]
      simp only [Option.some_bind]
      rw [skipWs_cons _ _ (by decide), parseObjSep, if_pos rfl]
      rw [parseObjTail_stringify fuel (e :: es2) rest (by simp) hfo]
      rfl
termination_by fuel => fuel

end

/-- `JSON.parse` undoes `JSON.stringify` on every embedded value. -/
theorem jsonParse_stringify (v : JVal) : jsonParse (jsonStringify v) = some v := by
  rw [jsonParse]
  have hf : jfuel v ≤ (jsonStringify v).length + 1 :=
    le_trans (jfuel_le_len v) (by omega)
  have h1 := parseVal_stringify ((jsonStringify v).length + 1) v [] hf (Or.inl rfl)
  rw [List.append_nil] at h1
  simp only [h1]
  simp [skipWs]

/-- Whenever `encrypt` returns (does not throw), `decrypt` undoes it. -/
theorem decrypt_encrypt (s : List Nat) (hs : ∀ u ∈ s, u < 65536) :
    ∀ e, SimpleEncryption.encrypt s = some e → SimpleEncryption.decrypt e = s := by
  intro e he
  rw [SimpleEncryption.encrypt] at he
  rcases Option.map_eq_some'.mp he with ⟨cps, hcps, hmap⟩
  subst hmap
  have hxb : ∀ u ∈ xorKey s, u < 65536 := xorKeyGo_lt s 0 hs
  have hcp : ∀ cp ∈ cps, cp < 1114112 := utf16_cp_lt (xorKey s) cps hcps hxb
  have h1 : b64Decode (b64Encode (utf8Encode cps)) = some (utf8Encode cps) :=
    b64_roundtrip _ (utf8Encode_lt256 _ hcp)
  have h2 : utf8Decode (utf8Encode cps) = some cps := utf8_roundtrip _ hcp
  have h3 : codepointsToUtf16 cps = xorKey s := utf16_roundtrip _ _ hcps hxb
  simp only [SimpleEncryption.decrypt, h1, h2, h3]
  exact xorKey_involution s

/-- C10: storage encryption round-trip.  For every JS string `s` (a UTF-16
code-unit sequence), whenever `SimpleEncryption.encrypt` returns a
ciphertext (on a string with a lone surrogate it instead throws a
`URIError` out of `encodeURIComponent`, modelled as `none`, and nothing is
stored), `SimpleEncryption.decrypt` restores `s` exactly; and for every
JSON-serializable value `v` whose strings are well-formed UTF-16,
`SecureStorage.getItem` on the cell written by `SecureStorage.setItem`
returns a value equal to `v`: the XOR pass, the UTF-8/base64 transport
coding, and `JSON.stringify`/`JSON.parse` all cancel. -/
theorem storage_roundtrip (s : List Nat) (hs : ∀ u ∈ s, u < 65536)
    (v : JVal) (hv : jvalWF v = true) :
    (∀ e, SimpleEncryption.encrypt s = some e → SimpleEncryption.decrypt e = s) ∧
    SecureStorage.getItem (SecureStorage.setItem v) = some v := by
  refine ⟨decrypt_encrypt s hs, ?_⟩
  obtain ⟨hvs, hvb⟩ := jsonStringify_valid v hv
  have hx : (utf16ToCodepoints (xorKey (jsonStringify v))).isSome :=
    utf16_xorKeyGo_isSome (jsonStringify v) 0 hvs
  rcases Option.isSome_iff_exists.mp hx with ⟨cps, hcps⟩
  have henc : SimpleEncryption.encrypt (jsonStringify v) =
      some (b64Encode (utf8Encode cps)) := by
    rw [SimpleEncryption.encrypt, hcps]
    rfl
  have hdec : SimpleEncryption.decrypt (b64Encode (utf8Encode cps)) = jsonStringify v :=
    decrypt_encrypt (jsonStringify v) hvb _ henc
  simp only [SecureStorage.setItem, henc, SecureStorage.getItem, hdec]
  rw [if_neg (jsonStringify_ne_nil v), jsonParse_stringify]

/-- Witness for `storage_roundtrip`: the string `hi` and the object
`\x7b"a": "x"\x7d`. -/
theorem storage_roundtrip_witness :
    ((∀ u ∈ codesOf "hi", u < 65536) ∧
      jvalWF (JVal.obj [(codesOf "a", JVal.str (codesOf "x"))]) = true) ∧
    ((∀ e, SimpleEncryption.encrypt (codesOf "hi") = some e →
        SimpleEncryption.decrypt e = codesOf "hi") ∧
      SecureStorage.getItem (SecureStorage.setItem
          (JVal.obj [(codesOf "a", JVal.str (codesOf "x"))])) =
        some (JVal.obj [(codesOf "a", JVal.str (codesOf "x"))])) := by
  have h1 : ∀ u ∈ codesOf "hi", u < 65536 := by decide
  have h2 : jvalWF (JVal.obj [(codesOf "a", JVal.str (codesOf "x"))]) = true := by
    rw [jvalWF, jvalWFEntries, jvalWF, jvalWFEntries]
    decide
  exact ⟨⟨h1, h2⟩, storage_roundtrip (codesOf "hi") h1 _ h2⟩

/-! ## C3: additive permission merge -/

theorem updB_role (M : String) (b : Binding) : (updB M b).role = b.role := by
  rw [updB]; split <;> rfl

theorem updB_mem_self (M : String) (b : Binding) : M ∈ (updB M b).members := by
  rw [updB]; split
  · assumption
  · simp

theorem updB_mono (M : String) (b : Binding) : ∀ m ∈ b.members, m ∈ (updB M b).members := by
  intro m hm
  rw [updB]; split
  · exact hm
  · simp [hm]

theorem updB_nodup (M : String) (b : Binding) (h : b.members.Nodup) :
    (updB M b).members.Nodup := by
  rw [updB]; split
  · exact h
  · rename_i hnot
    simp only [List.nodup_append, List.nodup_singleton, true_and]
    exact ⟨h, by simpa using hnot⟩

/-- `find`-and-push decomposition: either no binding matches the role, or
the list splits around the first matching binding, which alone is updated. -/
theorem addToFirst_cases (R M : String) (bs : List Binding) :
    (addToFirst R M bs = none ∧ ∀ b ∈ bs, b.role ≠ R) ∨
    ∃ pre b post, bs = pre ++ b :: post ∧ (∀ x ∈ pre, x.role ≠ R) ∧ b.role = R ∧
      addToFirst R M bs = some (pre ++ updB M b :: post) := by
  induction bs with
  | nil => exact Or.inl ⟨rfl, by simp⟩
  | cons hd tl ih =>
    by_cases hr : hd.role = R
    · exact Or.inr ⟨[], hd, tl, by simp, by simp, hr, by simp [addToFirst, hr]⟩
    · rcases ih with ⟨hnone, hall⟩ | ⟨pre, b, post, heq, hpre, hb, hsome⟩
      · refine Or.inl ⟨by simp [addToFirst, hr, hnone], ?_⟩
        intro x hx
        rcases List.mem_cons.mp hx with rfl | hx
        · exact hr
        · exact hall x hx
      · refine Or.inr ⟨hd :: pre, b, post, by simp [heq], ?_, hb, ?_⟩
        · intro x hx
          rcases List.mem_cons.mp hx with rfl | hx
          · exact hr
          · exact hpre x hx
        · simp [addToFirst, hr, hsome]

/-- The defensive cleanup is the identity on well-formed policies. -/
theorem cleanBindings_id (bs : List Binding) (h : wellFormedPolicy bs) :
    cleanBindings bs = bs := by
  rw [cleanBindings]
  have hmap : (bs.map fun b =>
      { b with members := b.members.filter fun m => !(strIncludes m "undefined") }) = bs := by
    conv_rhs => rw [← List.map_id bs]
    apply List.map_congr_left
    intro b hb
    have hf : b.members.filter (fun m => !(strIncludes m "undefined")) = b.members :=
      List.filter_eq_self.mpr fun m hm => by rw [(h b hb).2.2 m hm]; rfl
    simp [hf]
  rw [hmap]
  apply List.filter_eq_self.mpr
  intro b hb
  have hne := (h b hb).1
  simp [hne]

/-- C3 counterexample: on a starting policy granting role `r2` to the
member `undefined` (a malformed member) and role `r3` twice to member `m`,
merging the new pair `(r, x)` drops the `r2` binding entirely (the cleanup
clears it although its role is not mentioned in the call) and keeps the
duplicated member inside the `r3` binding. -/
theorem additive_merge_counterexample :
    grantPair [⟨"r2", ["undefined"]⟩, ⟨"r3", ["m", "m"]⟩] "r" "x" =
      [⟨"r3", ["m", "m"]⟩, ⟨"r", ["x"]⟩] ∧
    (¬ ∃ b ∈ grantPair [⟨"r2", ["undefined"]⟩, ⟨"r3", ["m", "m"]⟩] "r" "x",
      b.role = "r2" ∧ "undefined" ∈ b.members) ∧
    (∃ b ∈ grantPair [⟨"r2", ["undefined"]⟩, ⟨"r3", ["m", "m"]⟩] "r" "x",
      ¬ b.members.Nodup) := by
  decide

/-- C3 (amended): on a starting policy whose members are all well formed
(no `undefined` substring), whose bindings are nonempty, and which repeats
no member inside a binding, merging a new well-formed pair `(R, M)` keeps
every original grant, adds `(R, M)`, repeats no member inside any binding,
and both keeps every binding of an unmentioned role unchanged and adds no
other binding for unmentioned roles. -/
theorem additive_merge (bs : List Binding) (R M : String)
    (hwf : wellFormedPolicy bs) (hM : M ≠ "") (hMu : strIncludes M "undefined" = false) :
    (∀ b ∈ bs, ∃ b' ∈ grantPair bs R M, b'.role = b.role ∧
      ∀ m ∈ b.members, m ∈ b'.members) ∧
    (∃ b ∈ grantPair bs R M, b.role = R ∧ M ∈ b.members) ∧
    (∀ b ∈ grantPair bs R M, b.members.Nodup) ∧
    (∀ b ∈ bs, b.role ≠ R → b ∈ grantPair bs R M) ∧
    (∀ b ∈ grantPair bs R M, b.role ≠ R → b ∈ bs) := by
  rw [grantPair, cleanBindings_id bs hwf, addRoleBinding,
    if_neg (by simp [hM, hMu])]
  rcases addToFirst_cases R M bs with ⟨hnone, hall⟩ | ⟨pre, b, post, heq, hpre, hb, hsome⟩
  · simp only [hnone]
    refine ⟨?_, ?_, ?_, ?_, ?_⟩
    · intro b hb
      exact ⟨b, by simp [hb], rfl, fun m hm => hm⟩
    · exact ⟨⟨R, [M]⟩, by simp, rfl, by simp⟩
    · intro b hb
      rcases List.mem_append.mp hb with h | h
      · exact (hwf b h).2.1
      · simp only [List.mem_singleton] at h
        subst h
        simp
    · intro b hb _
      simp [hb]
    · intro b hb hne
      rcases List.mem_append.mp hb with h | h
      · exact h
      · simp only [List.mem_singleton] at h
        subst h
        simp at hne
  · simp only [hsome]
    have hbmem : b ∈ bs := by rw [heq]; simp
    refine ⟨?_, ?_, ?_, ?_, ?_⟩
    · intro x hx
      rw [heq] at hx
      rcases List.mem_append.mp hx with h | h
      · exact ⟨x, by simp [h], rfl, fun m hm => hm⟩
      · rcases List.mem_cons.mp h with rfl | h
        · exact ⟨updB M x, by simp, updB_role M x, updB_mono M x⟩
        · exact ⟨x, by simp [h], rfl, fun m hm => hm⟩
    · refine ⟨updB M b, by simp, ?_, updB_mem_self M b⟩
      rw [updB_role M b, hb]
    · intro x hx
      rcases List.mem_append.mp hx with h | h
      · exact (hwf x (by rw [heq]; simp [h])).2.1
      · rcases List.mem_cons.mp h with rfl | h
        · exact updB_nodup M b (hwf b hbmem).2.1
        · exact (hwf x (by rw [heq]; simp [h])).2.1
    · intro x hx hne
      rw [heq] at hx
      rcases List.mem_append.mp hx with h | h
      · simp [h]
      · rcases List.mem_cons.mp h with rfl | h
        · exact absurd hb hne
        · simp [h]
    · intro x hx hne
      rcases List.mem_append.mp hx with h | h
      · rw [heq]; simp [h]
      · rcases List.mem_cons.mp h with rfl | h
        · rw [updB_role M b, hb] at hne
          exact absurd rfl hne
        · rw [heq]; simp [h]

/-- Witness for `additive_merge` at a concrete well-formed policy. -/
theorem additive_merge_witness :
    (∃ b ∈ grantPair [⟨"r2", ["m2"]⟩] "r" "m", b.role = "r" ∧ "m" ∈ b.members) ∧
    (⟨"r2", ["m2"]⟩ : Binding) ∈ grantPair [⟨"r2", ["m2"]⟩] "r" "m" := by
  have h := additive_merge [⟨"r2", ["m2"]⟩] "r" "m"
    (by unfold wellFormedPolicy; decide) (by decide) (by decide)
  exact ⟨h.2.1, h.2.2.2.1 _ (by simp) (by decide)⟩

/-! ## C6: degraded success on poll-budget exhaustion -/

theorem configPollGo_false (poll : Nat → Except String (Option String)) :
    ∀ fuel i, (∀ j st, i ≤ j → j < i + fuel → poll j = .ok (some st) → st ≠ "ACTIVE") →
    configPollGo poll i fuel = false := by
  intro fuel
  induction fuel with
  | zero => intro i _; rfl
  | succ n ih =>
    intro i hnone
    rw [configPollGo]
    cases hp : poll i with
    | error e => exact ih (i + 1) fun j st h1 h2 => hnone j st (by omega) (by omega)
    | ok o =>
      cases o with
      | none => exact ih (i + 1) fun j st h1 h2 => hnone j st (by omega) (by omega)
      | some st =>
        have hne : st ≠ "ACTIVE" := hnone i st (le_refl i) (by omega) hp
        simp only [hne, if_false]
        exact ih (i + 1) fun j st h1 h2 => hnone j st (by omega) (by omega)

/-- C6: when none of the 60 activation checks observes the config in the
`ACTIVE` state, the gateway-creation step returns normally with a partial
result carrying a warning string and `shouldRetryLater = true`, instead of
throwing. -/
theorem degraded_success (poll : Nat → Except String (Option String))
    (apiId configId gatewayId : String)
    (h : ∀ i st, 1 ≤ i → i ≤ 60 → poll i = .ok (some st) → st ≠ "ACTIVE") :
    gatewayAfterConfigPoll poll apiId configId gatewayId =
      .ok (.degraded
        "API Gateway is still activating. It may take up to 15 minutes to become fully operational."
        apiId configId gatewayId true) := by
  rw [gatewayAfterConfigPoll, configPollReady]
  rw [configPollGo_false poll 60 1 fun j st h1 h2 => h j st h1 (by omega)]
  rfl

/-- Witness for `degraded_success`: a config stuck in `PENDING`. -/
theorem degraded_success_witness :
    gatewayAfterConfigPoll (fun _ => .ok (some "PENDING")) "api" "cfg" "gw" =
      .ok (.degraded
        "API Gateway is still activating. It may take up to 15 minutes to become fully operational."
        "api" "cfg" "gw" true) := by
  apply degraded_success
  intro i st _ _ hp
  have : st = "PENDING" := by
    have := Except.ok.inj hp
    exact (Option.some.inj this).symm
  rw [this]
  decide

end AnavaInstaller
